import Mathlib

/-!
# POP3 client (taknb2nch/go-pop3): transport/response layer and command layer

Shallow embedding of `pop3proto.go` and `pop3.go`.

* A Go `string` is the list of its runes (`Nat` code points).  Every rune the
  code inspects (space, `.`, sign, decimal digits, the letters of `+OK` and
  `-ERR`) is ASCII, so byte offsets returned by `strings.Index` and used for
  slicing fall on rune boundaries and the rune view loses nothing.
* The read half of a connection is the list of lines the server has sent and
  the client has not read yet; `textproto.Reader.ReadLine` hands out the head
  and reports `io.EOF` once the list is empty.
* The write half is the text written so far, together with the fault (if any)
  the byte stream raises on a write.
-/

namespace Pop3

/-- A Go string, as the list of its runes. -/
abbrev GoString := List Nat

/-- The Go string written by a literal. -/
def str (s : String) : GoString := s.toList.map Char.toNat

/-- Go error values met in the package: `io.EOF`, the package's own
`ResponseError`, a value made by `errors.New`, and a fault of the byte
stream. -/
inductive GoError where
  | EOF : GoError
  | ResponseError : GoString → GoError
  | errorString : GoString → GoError
  | transport : GoString → GoError
  deriving DecidableEq, Repr

/-- The method `Error()` of an error value. -/
def GoError.Error : GoError → GoString
  | GoError.EOF => str "EOF"
  | GoError.ResponseError r => r
  | GoError.errorString s => s
  | GoError.transport s => s

/-! ## Library functions used by the package -/

/-- Function `strings.Index(s, sep)` for a one-rune separator: the position of
the first occurrence, `-1` when there is none. -/
def Index (sep : Nat) : GoString → Int
  | [] => -1
  | c :: cs =>
    if c = sep then 0
    else
      let i := Index sep cs
      if i < 0 then -1 else i + 1

/-- Function `unicode.ToUpper` on the runes that matter for a comparison with
an ASCII token: ASCII lower-case letters, and the two non-ASCII runes whose
upper-case form is ASCII (U+0131 and U+017F).  Every other rune above U+007F
has an upper-case form above U+007F and is left in place. -/
def unicodeToUpper (r : Nat) : Nat :=
  if 97 ≤ r ∧ r ≤ 122 then r - 32
  else if r = 305 then 73
  else if r = 383 then 83
  else r

/-- Function `strings.ToUpper`. -/
def ToUpper (s : GoString) : GoString := s.map unicodeToUpper

/-- Function `strings.Split(s, sep)` for a one-rune separator. -/
def Split (sep : Nat) : GoString → List GoString
  | [] => [[]]
  | c :: cs =>
    if c = sep then [] :: Split sep cs
    else
      match Split sep cs with
      | [] => [[c]]
      | f :: fs => (c :: f) :: fs

/-- Function `strings.Join(elems, sep)`. -/
def Join : List GoString → GoString → GoString
  | [], _ => []
  | [a], _ => a
  | a :: b :: rest, sep => a ++ sep ++ Join (b :: rest) sep

/-- Value of a run of decimal digits read after the value `n`, `none` on any
other rune. -/
def digitsValue : GoString → Nat → Option Nat
  | [], n => some n
  | c :: cs, n => if 48 ≤ c ∧ c ≤ 57 then digitsValue cs (n * 10 + (c - 48)) else none

/-- Function `strconv.ParseUint(s, 10, 64)`: `none` stands for a non-nil
error (empty text, a rune that is not a decimal digit, or a value that does
not fit 64 bits). -/
def ParseUint (s : GoString) : Option Nat :=
  if s = [] then none
  else
    match digitsValue s 0 with
    | none => none
    | some v => if v < 2 ^ 64 then some v else none

/-- Function `strconv.Atoi(s)` on a platform whose `int` has `intSize` bits:
an optional sign, at least one decimal digit, and a value in the range of
`int`; `none` stands for a non-nil error. -/
def Atoi (intSize : Nat) (s : GoString) : Option Int :=
  match s with
  | [] => none
  | c :: cs =>
    let ds := if c = 45 ∨ c = 43 then cs else s
    if ds = [] then none
    else
      match digitsValue ds 0 with
      | none => none
      | some v =>
        if c = 45 then
          if v ≤ 2 ^ (intSize - 1) then some (-(v : Int)) else none
        else
          if v < 2 ^ (intSize - 1) then some (v : Int) else none

/-- Decimal digits of a natural number, most significant first, as
`strconv.FormatUint(n, 10)` writes them. -/
def formatBits : Nat → Nat → GoString → GoString
  | 0, _, acc => acc
  | fuel + 1, n, acc =>
    if n < 10 then (n + 48) :: acc
    else formatBits fuel (n / 10) ((n % 10 + 48) :: acc)

/-- Function `strconv.FormatUint(n, 10)`. -/
def FormatUint (n : Nat) : GoString := formatBits (n + 1) n []

/-- Function `strconv.Itoa(n)`, which is also what the verb `%d` prints. -/
def Itoa (n : Int) : GoString :=
  if n < 0 then 45 :: FormatUint n.natAbs else FormatUint n.natAbs

/-! ## pop3proto.go -/

/-- The two halves of a `Conn`: lines still to be read, text written so far,
and the fault the byte stream raises on a write, if any. -/
structure Conn where
  input : List GoString
  output : GoString
  wfault : Option GoError
  deriving DecidableEq, Repr

/-- Text of the format error for a line without a space. -/
def msgMalformed : GoString := str "レスポンスのフォーマットが不正です。: "

/-- Text of the format error for a line with an unknown status token. -/
def msgUnknown : GoString := str "レスポンスの内容が不明です。: "

/-- Method `Reader.ReadLine`. -/
def Reader.ReadLine (c : Conn) : (GoString × Option GoError) × Conn :=
  match c.input with
  | [] => (([], some GoError.EOF), c)
  | l :: rest => ((l, none), { c with input := rest })

/-- Method `Reader.parseResponse`. -/
def Reader.parseResponse (line : GoString) : GoString × Option GoError :=
  let index := Index 32 line
  if index < 0 then
    ([], some (GoError.ResponseError (msgMalformed ++ line)))
  else
    let token := ToUpper (line.take index.toNat)
    if token = str "+OK" then
      (line.drop (index.toNat + 1), none)
    else if token = str "-ERR" then
      ([], some (GoError.ResponseError (line.drop (index.toNat + 1))))
    else
      ([], some (GoError.ResponseError (msgUnknown ++ line)))

/-- Method `Reader.ReadResponse`. -/
def Reader.ReadResponse (c : Conn) : (GoString × Option GoError) × Conn :=
  match Reader.ReadLine c with
  | ((_, some err), c1) => (([], some err), c1)
  | ((line, none), c1) => (Reader.parseResponse line, c1)

/-- The line terminator `crnl`. -/
def crnl : GoString := [13, 10]

/-- Method `Reader.ReadLines`, the loop: `lines` is the slice accumulated so
far (the nil slice is `[]`), the first argument the lines still to be read. -/
def Reader.readLinesLoop : List GoString → List GoString →
    (List GoString × Option GoError) × List GoString
  | [], _ => (([], some GoError.EOF), [])
  | line :: rest, lines =>
    if line = str "." then ((lines, none), rest)
    else Reader.readLinesLoop rest (lines ++ [line])

/-- Method `Reader.ReadLines`. -/
def Reader.ReadLines (c : Conn) : (List GoString × Option GoError) × Conn :=
  ((Reader.readLinesLoop c.input []).1, { c with input := (Reader.readLinesLoop c.input []).2 })

/-- Method `Reader.ReadToPeriod`. -/
def Reader.ReadToPeriod (c : Conn) : (GoString × Option GoError) × Conn :=
  match Reader.ReadLines c with
  | ((_, some _), c1) => (([], none), c1)
  | ((lines, none), c1) => ((Join lines (str "\r\n"), none), c1)

/-- Method `Writer.WriteLine`, applied to the text that `fmt.Fprintf` renders
from the format and its arguments. -/
def Writer.WriteLine (text : GoString) (c : Conn) : Option GoError × Conn :=
  match c.wfault with
  | some err => (some err, c)
  | none => (none, { c with output := c.output ++ text ++ crnl })

/-! ## pop3.go

A `Client` is handled through its `Text` connection; its second field is
another reference to the same byte stream and no method reads it. -/

/-- The type `MessageInfo`. -/
structure MessageInfo where
  Number : Int
  Size : Nat
  Uid : GoString
  deriving DecidableEq, Repr

/-- Text that introduces a command-level format error, after the command name. -/
def msgCommand : GoString := str "コマンドのレスポンスが不正です。: "

/-- Text of the error for a line with fewer than two fields. -/
def msgFewFields : GoString := str "分割後の配列数が2未満です。: "

/-- Text of the error for a first field that is not an `int`. -/
def msgNotInt : GoString := str "配列要素[0]をint型に変換できません。: "

/-- Text of the error for a second field that is not a `uint64`. -/
def msgNotUint : GoString := str "配列要素[1]をuint64型に変換できません。: "

/-- Method `Client.convertNumberAndSize`. -/
def Client.convertNumberAndSize (intSize : Nat) (line : GoString) : Int × Nat × Option GoError :=
  let s := Split 32 line
  if s.length < 2 then
    (0, 0, some (GoError.errorString (msgFewFields ++ line)))
  else
    match Atoi intSize (s.getD 0 []) with
    | none => (0, 0, some (GoError.errorString (msgNotInt ++ line)))
    | some val =>
      match ParseUint (s.getD 1 []) with
      | none => (0, 0, some (GoError.errorString (msgNotUint ++ line)))
      | some size => (val, size, none)

/-- Method `Client.convertNumberAndUid`. -/
def Client.convertNumberAndUid (intSize : Nat) (line : GoString) : Int × GoString × Option GoError :=
  let s := Split 32 line
  if s.length < 2 then
    (0, [], some (GoError.errorString (msgFewFields ++ line)))
  else
    match Atoi intSize (s.getD 0 []) with
    | none => (0, [], some (GoError.errorString (msgNotInt ++ line)))
    | some val => (val, s.getD 1 [], none)

/-- Method `Client.cmdSimple`, applied to the rendered command text. -/
def Client.cmdSimple (text : GoString) (c : Conn) : Option GoError × Conn :=
  match Writer.WriteLine text c with
  | (some err, c1) => (some err, c1)
  | (none, c1) =>
    match Reader.ReadResponse c1 with
    | ((_, some err), c2) => (some err, c2)
    | ((_, none), c2) => (none, c2)

/-- Method `Client.cmdStatOrList`, applied to the rendered command text. -/
def Client.cmdStatOrList (intSize : Nat) (name text : GoString) (c : Conn) :
    (Int × Nat × Option GoError) × Conn :=
  match Writer.WriteLine text c with
  | (some err, c1) => ((0, 0, some err), c1)
  | (none, c1) =>
    match Reader.ReadResponse c1 with
    | ((_, some err), c2) => ((0, 0, some err), c2)
    | ((msg, none), c2) =>
      if (Split 32 msg).length < 2 then
        ((0, 0, some (GoError.ResponseError (name ++ msgCommand ++ msg))), c2)
      else
        match Client.convertNumberAndSize intSize msg with
        | (_, _, some err) =>
          ((0, 0, some (GoError.ResponseError (name ++ msgCommand ++ err.Error))), c2)
        | (val, size, none) => ((val, size, none), c2)

/-- The `for ... range lines` loop of `Client.cmdReadLines`; the state `st` is
what the closure `lineFn` has captured. -/
def Client.rangeLines {σ : Type} (lineFn : σ → GoString → σ × Option GoError) :
    List GoString → σ → σ × Option GoError
  | [], st => (st, none)
  | line :: rest, st =>
    match lineFn st line with
    | (st1, some err) => (st1, some err)
    | (st1, none) => Client.rangeLines lineFn rest st1

/-- Method `Client.cmdReadLines`. -/
def Client.cmdReadLines {σ : Type} (cmnd : GoString) (lineFn : σ → GoString → σ × Option GoError)
    (st : σ) (c : Conn) : (σ × Option GoError) × Conn :=
  match Writer.WriteLine cmnd c with
  | (some err, c1) => ((st, some err), c1)
  | (none, c1) =>
    match Reader.ReadResponse c1 with
    | ((_, some err), c2) => ((st, some err), c2)
    | ((_, none), c2) =>
      match Reader.ReadLines c2 with
      | ((_, some err), c3) => ((st, some err), c3)
      | ((lines, none), c3) => (Client.rangeLines lineFn lines st, c3)

/-- Function `NewClient`: the client (its connection) or nil, the error, and
the state of the byte stream afterwards. -/
def NewClient (conn : Conn) : (Option Conn × Option GoError) × Conn :=
  match Reader.ReadResponse conn with
  | ((_, some err), c1) => ((none, some err), c1)
  | ((_, none), c1) => ((some c1, none), c1)

/-- Method `Client.User`. -/
def Client.User (user : GoString) (c : Conn) : Option GoError × Conn :=
  Client.cmdSimple (str "USER " ++ user) c

/-- Method `Client.Pass`. -/
def Client.Pass (pass : GoString) (c : Conn) : Option GoError × Conn :=
  Client.cmdSimple (str "PASS " ++ pass) c

/-- Method `Client.Stat`. -/
def Client.Stat (intSize : Nat) (c : Conn) : (Int × Nat × Option GoError) × Conn :=
  Client.cmdStatOrList intSize (str "STAT") (str "STAT") c

/-- Method `Client.Retr`. -/
def Client.Retr (number : Int) (c : Conn) : (GoString × Option GoError) × Conn :=
  match Writer.WriteLine (str "RETR " ++ Itoa number) c with
  | (some err, c1) => (([], some err), c1)
  | (none, c1) =>
    match Reader.ReadResponse c1 with
    | ((_, some err), c2) => (([], some err), c2)
    | ((_, none), c2) => Reader.ReadToPeriod c2

/-- Text of the format error of `ListAll`, before the cause. -/
def msgListAll : GoString := str "LISTコマンドのレスポンスが不正です。: "

/-- Text of the format error of `Uidl` and `UidlAll`, before the cause. -/
def msgUidl : GoString := str "UIDLコマンドのレスポンスが不正です。: "

/-- Method `Client.ListAll`; `none` is the nil slice, and the state handed to
`cmdReadLines` is the captured variable `list`. -/
def Client.ListAll (intSize : Nat) (c : Conn) :
    (Option (List MessageInfo) × Option GoError) × Conn :=
  match Client.cmdReadLines (str "LIST")
      (fun (list : List MessageInfo) line =>
        match Client.convertNumberAndSize intSize line with
        | (_, _, some err) => (list, some err)
        | (number, size, none) =>
          (list ++ [{ Number := number, Size := size, Uid := [] }], none))
      [] c with
  | ((_, some err), c1) =>
    ((none, some (GoError.ResponseError (msgListAll ++ err.Error))), c1)
  | ((list, none), c1) => ((some list, none), c1)

/-- Method `Client.Uidl`. -/
def Client.Uidl (intSize : Nat) (number : Int) (c : Conn) :
    (Int × GoString × Option GoError) × Conn :=
  match Writer.WriteLine (str "UIDL " ++ Itoa number) c with
  | (some err, c1) => ((0, [], some err), c1)
  | (none, c1) =>
    match Reader.ReadResponse c1 with
    | ((_, some err), c2) => ((0, [], some err), c2)
    | ((msg, none), c2) =>
      match Client.convertNumberAndUid intSize msg with
      | (_, _, some err) =>
        ((0, [], some (GoError.ResponseError (msgUidl ++ err.Error))), c2)
      | (val, uid, none) => ((val, uid, none), c2)

/-- Method `Client.UidlAll`; `none` is the nil slice. -/
def Client.UidlAll (intSize : Nat) (c : Conn) :
    (Option (List MessageInfo) × Option GoError) × Conn :=
  match Client.cmdReadLines (str "UIDL")
      (fun (list : List MessageInfo) line =>
        match Client.convertNumberAndUid intSize line with
        | (_, _, some err) => (list, some err)
        | (number, uid, none) =>
          (list ++ [{ Number := number, Size := 0, Uid := uid }], none))
      [] c with
  | ((_, some err), c1) =>
    ((none, some (GoError.ResponseError (msgUidl ++ err.Error))), c1)
  | ((list, none), c1) => ((some list, none), c1)

/-- Method `Client.Dele`. -/
def Client.Dele (number : Int) (c : Conn) : Option GoError × Conn :=
  Client.cmdSimple (str "DELE " ++ Itoa number) c

/-- Method `Client.Noop`. -/
def Client.Noop (c : Conn) : Option GoError × Conn :=
  Client.cmdSimple (str "NOOP") c

/-- Method `Client.Rset`. -/
def Client.Rset (c : Conn) : Option GoError × Conn :=
  Client.cmdSimple (str "RSET") c

/-- Method `Client.Quit`. -/
def Client.Quit (c : Conn) : Option GoError × Conn :=
  Client.cmdSimple (str "QUIT") c

/-- Method `Client.List`. -/
def Client.List (intSize : Nat) (number : Int) (c : Conn) :
    (Int × Nat × Option GoError) × Conn :=
  Client.cmdStatOrList intSize (str "LIST") (str "LIST " ++ Itoa number) c

/-! ## Vocabulary of the specification -/

/-- All upper/lower-case spellings of a text: an ASCII letter may be written
in either case, any other rune only as it is. -/
def caseSpellings : GoString → List GoString
  | [] => [[]]
  | c :: cs =>
    if 65 ≤ c ∧ c ≤ 90 then
      (caseSpellings cs).map (fun t => c :: t) ++ (caseSpellings cs).map (fun t => (c + 32) :: t)
    else if 97 ≤ c ∧ c ≤ 122 then
      (caseSpellings cs).map (fun t => (c - 32) :: t) ++ (caseSpellings cs).map (fun t => c :: t)
    else (caseSpellings cs).map (fun t => c :: t)

/-! ## Lemmas on the library functions -/

theorem Index_ge (sep : Nat) (l : GoString) : -1 ≤ Index sep l := by
  induction l with
  | nil => simp [Index]
  | cons c cs ih =>
    simp only [Index]
    split_ifs <;> omega

theorem Index_of_not_mem (sep : Nat) (l : GoString) (h : sep ∉ l) : Index sep l = -1 := by
  induction l with
  | nil => simp [Index]
  | cons c cs ih =>
    have hc : ¬ c = sep := fun e => h (by simp [e])
    have hcs : sep ∉ cs := fun e => h (by simp [e])
    simp [Index, hc, ih hcs]

theorem Index_of_mem (sep : Nat) (l : GoString) (h : sep ∈ l) : 0 ≤ Index sep l := by
  induction l with
  | nil => simp at h
  | cons c cs ih =>
    by_cases hc : c = sep
    · simp [Index, hc]
    · have hm : sep ∈ cs := by
        rcases List.mem_cons.mp h with e | e
        · exact absurd e.symm hc
        · exact e
      have h0 := ih hm
      simp only [Index, hc, if_false]
      split_ifs <;> omega

theorem Index_append (sep : Nat) (tok t : GoString) (h : sep ∉ tok) :
    Index sep (tok ++ sep :: t) = (tok.length : Int) := by
  induction tok with
  | nil => simp [Index]
  | cons c cs ih =>
    have hc : ¬ c = sep := fun e => h (by simp [e])
    have hcs : sep ∉ cs := fun e => h (by simp [e])
    have h0 : ¬ ((cs.length : Int) < 0) := by omega
    simp [Index, hc, ih hcs, h0]

theorem Index_split (sep : Nat) (l : GoString) (h : 0 ≤ Index sep l) :
    sep ∉ l.take (Index sep l).toNat ∧
      l = l.take (Index sep l).toNat ++ sep :: l.drop ((Index sep l).toNat + 1) := by
  induction l with
  | nil => simp [Index] at h
  | cons c cs ih =>
    by_cases hc : c = sep
    · simp [Index, hc]
    · have hge := Index_ge sep cs
      by_cases hneg : Index sep cs < 0
      · simp [Index, hc, hneg] at h
      · have h0 : 0 ≤ Index sep cs := by omega
        obtain ⟨h1, h2⟩ := ih h0
        have e : (Index sep cs + 1).toNat = (Index sep cs).toNat + 1 := by omega
        have hc2 : ¬ sep = c := fun e => hc e.symm
        simp only [Index, hc, hneg, if_false, e, List.take_succ_cons, List.drop_succ_cons,
          List.cons_append, List.mem_cons, not_or]
        exact ⟨⟨hc2, h1⟩, by rw [← h2]⟩

theorem parseResponse_token (tok t : GoString) (h : 32 ∉ tok) :
    Reader.parseResponse (tok ++ 32 :: t) =
      if ToUpper tok = str "+OK" then (t, none)
      else if ToUpper tok = str "-ERR" then ([], some (GoError.ResponseError t))
      else ([], some (GoError.ResponseError (msgUnknown ++ (tok ++ 32 :: t)))) := by
  have h0 : ¬ ((tok.length : Int) < 0) := by omega
  simp [Reader.parseResponse, Index_append 32 tok t h, h0]

theorem ReadResponse_cons (c : Conn) (line : GoString) (rest : List GoString)
    (h : c.input = line :: rest) :
    Reader.ReadResponse c = (Reader.parseResponse line, { c with input := rest }) := by
  simp [Reader.ReadResponse, Reader.ReadLine, h]

theorem unicodeToUpper_eq (r u : Nat) (hu : u < 65 ∨ 90 < u) (h : unicodeToUpper r = u) :
    r = u := by
  unfold unicodeToUpper at h
  split_ifs at h <;> omega

theorem unicodeToUpper_letter (r u : Nat) (hu : 65 ≤ u ∧ u ≤ 90) (h73 : u ≠ 73)
    (h83 : u ≠ 83) (h : unicodeToUpper r = u) : r = u ∨ r = u + 32 := by
  unfold unicodeToUpper at h
  split_ifs at h <;> omega

theorem ToUpper_ok (tok : GoString) (h : ToUpper tok = str "+OK") :
    tok ∈ caseSpellings (str "+OK") := by
  have e : str "+OK" = [43, 79, 75] := by decide
  rw [e] at h
  simp only [ToUpper, List.map_eq_cons_iff, List.map_eq_nil_iff] at h
  obtain ⟨a, l1, rfl, ha, b, l2, rfl, hb, c, l3, rfl, hc, rfl⟩ := h
  · have ha1 := unicodeToUpper_eq a 43 (by omega) ha
    have hb1 := unicodeToUpper_letter b 79 (by omega) (by omega) (by omega) hb
    have hc1 := unicodeToUpper_letter c 75 (by omega) (by omega) (by omega) hc
    subst ha1
    rcases hb1 with rfl | rfl <;> rcases hc1 with rfl | rfl <;> decide

theorem ToUpper_err (tok : GoString) (h : ToUpper tok = str "-ERR") :
    tok ∈ caseSpellings (str "-ERR") := by
  have e : str "-ERR" = [45, 69, 82, 82] := by decide
  rw [e] at h
  simp only [ToUpper, List.map_eq_cons_iff, List.map_eq_nil_iff] at h
  obtain ⟨a, l1, rfl, ha, b, l2, rfl, hb, c, l3, rfl, hc, d, l4, rfl, hd, rfl⟩ := h
  · have ha1 := unicodeToUpper_eq a 45 (by omega) ha
    have hb1 := unicodeToUpper_letter b 69 (by omega) (by omega) (by omega) hb
    have hc1 := unicodeToUpper_letter c 82 (by omega) (by omega) (by omega) hc
    have hd1 := unicodeToUpper_letter d 82 (by omega) (by omega) (by omega) hd
    subst ha1
    rcases hb1 with rfl | rfl <;> rcases hc1 with rfl | rfl <;> rcases hd1 with rfl | rfl <;>
      decide

theorem caseSpellings_ok (tok : GoString) (h : tok ∈ caseSpellings (str "+OK")) :
    32 ∉ tok ∧ ToUpper tok = str "+OK" ∧ ToUpper tok ≠ str "-ERR" := by
  have e : ∀ x ∈ caseSpellings (str "+OK"),
      32 ∉ x ∧ ToUpper x = str "+OK" ∧ ToUpper x ≠ str "-ERR" := by decide
  exact e tok h

theorem caseSpellings_err (tok : GoString) (h : tok ∈ caseSpellings (str "-ERR")) :
    32 ∉ tok ∧ ToUpper tok = str "-ERR" ∧ ToUpper tok ≠ str "+OK" := by
  have e : ∀ x ∈ caseSpellings (str "-ERR"),
      32 ∉ x ∧ ToUpper x = str "-ERR" ∧ ToUpper x ≠ str "+OK" := by decide
  exact e tok h

theorem parseResponse_success (tok : GoString) (htok : tok ∈ caseSpellings (str "+OK"))
    (t : GoString) : Reader.parseResponse (tok ++ 32 :: t) = (t, none) := by
  obtain ⟨h1, h2, _⟩ := caseSpellings_ok tok htok
  rw [parseResponse_token tok t h1, if_pos h2]

theorem ReadResponse_success (tok : GoString) (htok : tok ∈ caseSpellings (str "+OK"))
    (t : GoString) (rest : List GoString) (out : GoString) (wf : Option GoError) :
    Reader.ReadResponse ⟨(tok ++ 32 :: t) :: rest, out, wf⟩ = ((t, none), ⟨rest, out, wf⟩) := by
  rw [ReadResponse_cons _ (tok ++ 32 :: t) rest rfl, parseResponse_success tok htok t]

/-! ## Response classification -/

/-- C1: for every text `t` and every upper/lower-case spelling `tok` of `+OK`,
`parseResponse` on the line `tok`, one space, `t` returns `t` and no error,
and so does `ReadResponse` when that line is the next one of the input. -/
theorem parseResponse_ok (tok : GoString) (htok : tok ∈ caseSpellings (str "+OK"))
    (t : GoString) :
    Reader.parseResponse (tok ++ 32 :: t) = (t, none) ∧
      ∀ (c : Conn) (rest : List GoString), c.input = (tok ++ 32 :: t) :: rest →
        Reader.ReadResponse c = ((t, none), { c with input := rest }) := by
  have hp := parseResponse_success tok htok t
  refine ⟨hp, ?_⟩
  intro c rest hc
  rw [ReadResponse_cons c _ rest hc, hp]

theorem parseResponse_ok_witness :
    str "+oK" ∈ caseSpellings (str "+OK") ∧
      Reader.parseResponse (str "+oK" ++ 32 :: str "two words") = (str "two words", none) :=
  ⟨by decide, (parseResponse_ok (str "+oK") (by decide) (str "two words")).1⟩

/-- C2: for every text `t` and every upper/lower-case spelling `tok` of
`-ERR`, `parseResponse` on the line `tok`, one space, `t` returns the empty
text and a `ResponseError` whose message is exactly `t`. -/
theorem parseResponse_err (tok : GoString) (htok : tok ∈ caseSpellings (str "-ERR"))
    (t : GoString) :
    ∃ err : GoError, Reader.parseResponse (tok ++ 32 :: t) = ([], some err) ∧
      err = GoError.ResponseError t ∧ err.Error = t := by
  obtain ⟨h1, h2, h3⟩ := caseSpellings_err tok htok
  refine ⟨GoError.ResponseError t, ?_, rfl, rfl⟩
  rw [parseResponse_token tok t h1, if_neg h3, if_pos h2]

theorem parseResponse_err_witness :
    ∃ err : GoError, Reader.parseResponse (str "-Err" ++ 32 :: []) = ([], some err) ∧
      err = GoError.ResponseError [] ∧ err.Error = [] :=
  parseResponse_err (str "-Err") (by decide) []

/-- C3: a line that is not a spelling of `+OK` or `-ERR` followed by a space
is never a success: `parseResponse` returns the empty text and a format error
whose message is a fixed introduction followed by the whole line (the
"malformed" one when the line has no space, the "unknown" one otherwise). -/
theorem parseResponse_format_error (line : GoString)
    (h : ¬ ∃ tok t, (tok ∈ caseSpellings (str "+OK") ∨ tok ∈ caseSpellings (str "-ERR")) ∧
      line = tok ++ 32 :: t) :
    (32 ∉ line →
      Reader.parseResponse line = ([], some (GoError.ResponseError (msgMalformed ++ line)))) ∧
    (32 ∈ line →
      Reader.parseResponse line = ([], some (GoError.ResponseError (msgUnknown ++ line)))) ∧
    ∃ err : GoError, Reader.parseResponse line = ([], some err) ∧ line <:+ err.Error := by
  have key : (32 ∉ line →
      Reader.parseResponse line = ([], some (GoError.ResponseError (msgMalformed ++ line)))) ∧
    (32 ∈ line →
      Reader.parseResponse line = ([], some (GoError.ResponseError (msgUnknown ++ line)))) := by
    constructor
    · intro hs
      simp [Reader.parseResponse, Index_of_not_mem 32 line hs]
    · intro hs
      have hi : 0 ≤ Index 32 line := Index_of_mem 32 line hs
      obtain ⟨h1, h2⟩ := Index_split 32 line hi
      rw [h2, parseResponse_token _ _ h1]
      have n1 : ¬ ToUpper (List.take (Index 32 line).toNat line) = str "+OK" := fun e =>
        h ⟨_, _, Or.inl (ToUpper_ok _ e), h2⟩
      have n2 : ¬ ToUpper (List.take (Index 32 line).toNat line) = str "-ERR" := fun e =>
        h ⟨_, _, Or.inr (ToUpper_err _ e), h2⟩
      rw [if_neg n1, if_neg n2]
  refine ⟨key.1, key.2, ?_⟩
  by_cases hs : 32 ∈ line
  · exact ⟨_, key.2 hs, List.suffix_append _ _⟩
  · exact ⟨_, key.1 hs, List.suffix_append _ _⟩

theorem parseResponse_format_error_witness :
    (¬ ∃ tok t, (tok ∈ caseSpellings (str "+OK") ∨ tok ∈ caseSpellings (str "-ERR")) ∧
      str "+OKAY" = tok ++ 32 :: t) ∧
    Reader.parseResponse (str "+OKAY") =
      ([], some (GoError.ResponseError (msgMalformed ++ str "+OKAY"))) :=
  have hyp : ¬ ∃ tok t, (tok ∈ caseSpellings (str "+OK") ∨ tok ∈ caseSpellings (str "-ERR")) ∧
      str "+OKAY" = tok ++ 32 :: t := by
    rintro ⟨tok, t, _, e⟩
    have hm : 32 ∈ str "+OKAY" := by rw [e]; simp
    revert hm
    decide
  ⟨hyp, (parseResponse_format_error (str "+OKAY") hyp).1 (by decide)⟩

/-- C4: on the bare line `+OK`, and on the bare line `-ERR`, `ReadResponse`
finds no space and returns the "malformed" format error carrying the line; it
does not classify the line as the token with an empty text. -/
theorem ReadResponse_bare_token :
    Reader.ReadResponse ⟨[str "+OK"], [], none⟩ =
        (([], some (GoError.ResponseError (msgMalformed ++ str "+OK"))), ⟨[], [], none⟩) ∧
      Reader.ReadResponse ⟨[str "-ERR"], [], none⟩ =
        (([], some (GoError.ResponseError (msgMalformed ++ str "-ERR"))), ⟨[], [], none⟩) := by
  decide

/-! ## Multi-line blocks -/

theorem readLinesLoop_sentinel (ls : List GoString) (hls : ∀ l ∈ ls, l ≠ str ".") :
    ∀ (acc rest : List GoString),
      Reader.readLinesLoop (ls ++ str "." :: rest) acc = ((acc ++ ls, none), rest) := by
  induction ls with
  | nil => intro acc rest; simp [Reader.readLinesLoop]
  | cons l ls ih =>
    intro acc rest
    have h1 : l ≠ str "." := hls l (by simp)
    have h2 : ∀ x ∈ ls, x ≠ str "." := fun x hx => hls x (by simp [hx])
    simp [Reader.readLinesLoop, h1, ih h2]

theorem readLinesLoop_exhausted (ls : List GoString) (hls : ∀ l ∈ ls, l ≠ str ".") :
    ∀ (acc : List GoString), Reader.readLinesLoop ls acc = (([], some GoError.EOF), []) := by
  induction ls with
  | nil => intro acc; simp [Reader.readLinesLoop]
  | cons l ls ih =>
    intro acc
    have h1 : l ≠ str "." := hls l (by simp)
    have h2 : ∀ x ∈ ls, x ≠ str "." := fun x hx => hls x (by simp [hx])
    simp [Reader.readLinesLoop, h1, ih h2]

theorem Join_eq_intercalate (sep : GoString) (ls : List GoString) :
    Join ls sep = List.intercalate sep ls := by
  induction ls with
  | nil => simp [Join, List.intercalate]
  | cons a ls ih =>
    cases ls with
    | nil => simp [Join, List.intercalate]
    | cons b ls =>
      simp only [List.intercalate] at ih
      simp [Join, List.intercalate, ih]

theorem ReadLines_block (c : Conn) (ls rest : List GoString)
    (hls : ∀ l ∈ ls, l ≠ str ".") (hin : c.input = ls ++ str "." :: rest) :
    Reader.ReadLines c = ((ls, none), { c with input := rest }) := by
  simp [Reader.ReadLines, hin, readLinesLoop_sentinel ls hls]

/-- C5: when the input is the lines `ls`, none of them `.`, then the line `.`,
then `rest`, `ReadLines` returns exactly `ls` with no error and leaves `rest`
unread; with `ls` empty the result is empty. -/
theorem ReadLines_to_sentinel (c : Conn) (ls rest : List GoString)
    (hls : ∀ l ∈ ls, l ≠ str ".") (hin : c.input = ls ++ str "." :: rest) :
    Reader.ReadLines c = ((ls, none), { c with input := rest }) ∧
      (ls = [] → (Reader.ReadLines c).1.1 = []) := by
  have h := ReadLines_block c ls rest hls hin
  refine ⟨h, ?_⟩
  intro e
  rw [h, e]

theorem ReadLines_to_sentinel_witness :
    Reader.ReadLines ⟨[str "line1", str "..", str ".x", str ".", str "+OK next"], [], none⟩ =
      (([str "line1", str "..", str ".x"], none), ⟨[str "+OK next"], [], none⟩) :=
  (ReadLines_to_sentinel ⟨[str "line1", str "..", str ".x", str ".", str "+OK next"], [], none⟩
    [str "line1", str "..", str ".x"] [str "+OK next"] (by decide) rfl).1

/-- C6: when no line of the input is `.`, the exhausted input included,
`ReadLines` returns the nil slice and `io.EOF`; what it had accumulated is
not returned. -/
theorem ReadLines_eof (c : Conn) (hls : ∀ l ∈ c.input, l ≠ str ".") :
    Reader.ReadLines c = (([], some GoError.EOF), { c with input := [] }) := by
  simp [Reader.ReadLines, readLinesLoop_exhausted c.input hls]

theorem ReadLines_eof_witness :
    Reader.ReadLines ⟨[str "line1", str "line2"], [], none⟩ =
      (([], some GoError.EOF), ⟨[], [], none⟩) :=
  ReadLines_eof ⟨[str "line1", str "line2"], [], none⟩ (by decide)

/-- C7: on an exhausted input, and on an input that ends before the line `.`,
`ReadToPeriod` returns the empty text and a nil error, and so does `Retr`
after a success reply line: the end-of-stream error of `ReadLines` is
dropped. -/
theorem ReadToPeriod_drops_eof :
    Reader.ReadToPeriod ⟨[], [], none⟩ = (([], none), ⟨[], [], none⟩) ∧
      Reader.ReadToPeriod ⟨[str "line1"], [], none⟩ = (([], none), ⟨[], [], none⟩) ∧
      (Client.Retr 1 ⟨[str "+OK 3970 octets", str "Date: today"], [], none⟩).1 =
        ([], none) := by
  decide

/-- C8: when writes succeed and the input is a success reply line, then the
lines `ls`, none of them `.`, then the line `.`, `Retr n` returns with no
error the lines of `ls` joined by `\r\n`, the reply text and the sentinel
left out and every line kept as it is; it has written `RETR n` and left the
input after the sentinel unread. -/
theorem Retr_body (n : Int) (tok t : GoString) (ls rest : List GoString) (c : Conn)
    (hw : c.wfault = none) (htok : tok ∈ caseSpellings (str "+OK"))
    (hls : ∀ l ∈ ls, l ≠ str ".")
    (hin : c.input = (tok ++ 32 :: t) :: (ls ++ str "." :: rest)) :
    Client.Retr n c =
      ((List.intercalate (str "\r\n") ls, none),
        { input := rest, output := c.output ++ (str "RETR " ++ Itoa n) ++ crnl,
          wfault := none }) := by
  obtain ⟨inp, out, wf⟩ := c
  simp only at hw hin
  subst hw hin
  simp only [Client.Retr, Writer.WriteLine, ReadResponse_success tok htok, Reader.ReadToPeriod]
  rw [ReadLines_block _ ls rest hls rfl]
  simp [Join_eq_intercalate]

theorem Retr_body_witness :
    Client.Retr 1 ⟨[str "+OK 2 lines", str "A", str "..B", str "."], [], none⟩ =
      ((str "A\r\n..B", none), ⟨[], str "RETR 1\r\n", none⟩) :=
  Retr_body 1 (str "+OK") (str "2 lines") [str "A", str "..B"] []
    ⟨[str "+OK 2 lines", str "A", str "..B", str "."], [], none⟩ rfl (by decide) (by decide) rfl

/-! ## Scalar-pair replies -/

theorem Split_ne_nil (sep : Nat) (l : GoString) : Split sep l ≠ [] := by
  cases l with
  | nil => simp [Split]
  | cons c cs =>
    simp only [Split]
    split_ifs
    · simp
    · split <;> simp

theorem Split_of_not_mem (sep : Nat) (a : GoString) (h : sep ∉ a) : Split sep a = [a] := by
  induction a with
  | nil => simp [Split]
  | cons c cs ih =>
    have hc : ¬ c = sep := fun e => h (by simp [e])
    have hcs : sep ∉ cs := fun e => h (by simp [e])
    simp [Split, hc, ih hcs]

theorem Split_append (sep : Nat) (a b : GoString) (h : sep ∉ a) :
    Split sep (a ++ sep :: b) = a :: Split sep b := by
  induction a with
  | nil => simp [Split]
  | cons c cs ih =>
    have hc : ¬ c = sep := fun e => h (by simp [e])
    have hcs : sep ∉ cs := fun e => h (by simp [e])
    simp [Split, hc, ih hcs]

theorem Split_cons_head (sep c : Nat) (d : GoString) (hc : c ≠ sep) :
    ∃ f fs, Split sep (c :: d) = (c :: f) :: fs := by
  simp only [Split, if_neg hc]
  split
  · exact ⟨[], [], rfl⟩
  · exact ⟨_, _, rfl⟩

theorem formatBits_acc (fuel : Nat) : ∀ (n : Nat) (acc : GoString),
    formatBits fuel n acc = formatBits fuel n [] ++ acc := by
  induction fuel with
  | zero => intro n acc; simp [formatBits]
  | succ fuel ih =>
    intro n acc
    simp only [formatBits]
    split_ifs
    · simp
    · rw [ih (n / 10) ((n % 10 + 48) :: acc), ih (n / 10) [n % 10 + 48]]
      simp

theorem formatBits_digits (fuel : Nat) : ∀ (n : Nat), ∀ c ∈ formatBits fuel n [],
    48 ≤ c ∧ c ≤ 57 := by
  induction fuel with
  | zero => intro n c hc; simp [formatBits] at hc
  | succ fuel ih =>
    intro n c hc
    simp only [formatBits] at hc
    split_ifs at hc with h
    · simp at hc
      omega
    · rw [formatBits_acc] at hc
      rcases List.mem_append.mp hc with h1 | h1
      · exact ih _ c h1
      · simp at h1
        omega

theorem formatBits_ne_nil (fuel n : Nat) : formatBits (fuel + 1) n [] ≠ [] := by
  simp only [formatBits]
  split_ifs
  · simp
  · rw [formatBits_acc]
    simp

theorem digitsValue_append (a : GoString) : ∀ (b : GoString) (m : Nat),
    digitsValue (a ++ b) m = (digitsValue a m).bind (digitsValue b) := by
  induction a with
  | nil => intro b m; simp [digitsValue]
  | cons c cs ih =>
    intro b m
    simp only [List.cons_append, digitsValue]
    split_ifs
    · exact ih b _
    · rfl

theorem digitsValue_formatBits (fuel : Nat) : ∀ (n : Nat), n < fuel →
    digitsValue (formatBits fuel n []) 0 = some n := by
  induction fuel with
  | zero => intro n h; omega
  | succ fuel ih =>
    intro n h
    simp only [formatBits]
    split_ifs with h10
    · have h1 : 48 ≤ n + 48 ∧ n + 48 ≤ 57 := by omega
      simp [digitsValue, h1]
    · rw [formatBits_acc, digitsValue_append, ih (n / 10) (by omega)]
      have h1 : 48 ≤ n % 10 + 48 ∧ n % 10 + 48 ≤ 57 := by omega
      simp only [Option.some_bind, digitsValue, h1, and_self, if_true, Option.some.injEq]
      omega

theorem FormatUint_digits (n : Nat) : ∀ c ∈ FormatUint n, 48 ≤ c ∧ c ≤ 57 :=
  formatBits_digits (n + 1) n

theorem FormatUint_ne_nil (n : Nat) : FormatUint n ≠ [] := formatBits_ne_nil n n

theorem digitsValue_FormatUint (n : Nat) : digitsValue (FormatUint n) 0 = some n :=
  digitsValue_formatBits (n + 1) n (by omega)

theorem FormatUint_no_space (n : Nat) : 32 ∉ FormatUint n := fun h => by
  have := FormatUint_digits n 32 h
  omega

theorem ParseUint_FormatUint (n : Nat) :
    ParseUint (FormatUint n) = if n < 2 ^ 64 then some n else none := by
  simp [ParseUint, FormatUint_ne_nil, digitsValue_FormatUint]

theorem ParseUint_minus (d : GoString) : ParseUint (45 :: d) = none := by
  simp [ParseUint, digitsValue]

theorem Itoa_no_space (n : Int) : 32 ∉ Itoa n := by
  unfold Itoa
  split_ifs
  · intro h
    rcases List.mem_cons.mp h with e | e
    · omega
    · exact FormatUint_no_space _ e
  · exact FormatUint_no_space _

theorem Atoi_FormatUint (intSize v : Nat) (hv : v < 2 ^ (intSize - 1)) :
    Atoi intSize (FormatUint v) = some (v : Int) := by
  have hne := FormatUint_ne_nil v
  have hd := FormatUint_digits v
  have hv0 := digitsValue_FormatUint v
  cases hf : FormatUint v with
  | nil => exact absurd hf hne
  | cons c cs =>
    rw [hf] at hd hv0
    have hc := hd c (by simp)
    have h1 : ¬ (c = 45 ∨ c = 43) := by omega
    have h2 : ¬ c = 45 := by omega
    have h3 : ¬ c = 43 := by omega
    simp [Atoi, h2, h3, hv0, hv]

theorem Atoi_minus_FormatUint (intSize v : Nat) (hv : v ≤ 2 ^ (intSize - 1)) :
    Atoi intSize (45 :: FormatUint v) = some (-(v : Int)) := by
  simp [Atoi, FormatUint_ne_nil, digitsValue_FormatUint, hv]

theorem Atoi_Itoa (intSize : Nat) (n : Int)
    (hn : -(2 ^ (intSize - 1) : Int) ≤ n ∧ n < 2 ^ (intSize - 1)) :
    Atoi intSize (Itoa n) = some n := by
  obtain ⟨h1, h2⟩ := hn
  have hP : ((2 ^ (intSize - 1) : Nat) : Int) = (2 : Int) ^ (intSize - 1) := by push_cast; rfl
  rw [← hP] at h1 h2
  unfold Itoa
  split_ifs with hneg
  · rw [Atoi_minus_FormatUint intSize n.natAbs (by omega)]
    congr 1
    omega
  · rw [Atoi_FormatUint intSize n.natAbs (by omega)]
    congr 1
    omega

theorem cmdStatOrList_reply (intSize : Nat) (name text tok msg : GoString)
    (htok : tok ∈ caseSpellings (str "+OK")) (rest : List GoString) (out : GoString) :
    (Client.cmdStatOrList intSize name text ⟨(tok ++ 32 :: msg) :: rest, out, none⟩).1 =
      if (Split 32 msg).length < 2 then
        (0, 0, some (GoError.ResponseError (name ++ msgCommand ++ msg)))
      else
        match Client.convertNumberAndSize intSize msg with
        | (_, _, some err) =>
          (0, 0, some (GoError.ResponseError (name ++ msgCommand ++ err.Error)))
        | (val, size, none) => (val, size, none) := by
  simp only [Client.cmdStatOrList, Writer.WriteLine, ReadResponse_success tok htok]
  split_ifs
  · rfl
  · split <;> simp_all

theorem Uidl_reply (intSize : Nat) (k : Int) (tok msg : GoString)
    (htok : tok ∈ caseSpellings (str "+OK")) (rest : List GoString) (out : GoString) :
    (Client.Uidl intSize k ⟨(tok ++ 32 :: msg) :: rest, out, none⟩).1 =
      match Client.convertNumberAndUid intSize msg with
      | (_, _, some err) => (0, [], some (GoError.ResponseError (msgUidl ++ err.Error)))
      | (val, uid, none) => (val, uid, none) := by
  simp only [Client.Uidl, Writer.WriteLine, ReadResponse_success tok htok]
  split <;> simp_all

theorem convertNumberAndSize_pair (intSize : Nat) (n : Int) (field : GoString)
    (hn : -(2 ^ (intSize - 1) : Int) ≤ n ∧ n < 2 ^ (intSize - 1)) :
    Client.convertNumberAndSize intSize (Itoa n ++ 32 :: field) =
      match ParseUint ((Split 32 field).getD 0 []) with
      | none => (0, 0, some (GoError.errorString (msgNotUint ++ (Itoa n ++ 32 :: field))))
      | some size => (n, size, none) := by
  have hs : Split 32 (Itoa n ++ 32 :: field) = Itoa n :: Split 32 field :=
    Split_append 32 _ _ (Itoa_no_space n)
  have hl : ¬ (Split 32 field).length + 1 < 2 := by
    have := List.length_pos.mpr (Split_ne_nil 32 field)
    omega
  cases hsf : Split 32 field with
  | nil => exact absurd hsf (Split_ne_nil 32 field)
  | cons f fs =>
    simp [Client.convertNumberAndSize, hs, hsf, Atoi_Itoa intSize n hn]

theorem pair_fields (n : Int) (field : GoString) :
    ¬ (Split 32 (Itoa n ++ 32 :: field)).length < 2 := by
  rw [Split_append 32 _ _ (Itoa_no_space n)]
  have := List.length_pos.mpr (Split_ne_nil 32 field)
  simp only [List.length_cons]
  omega

theorem okSpace : str "+OK " = str "+OK" ++ [32] := by decide

theorem cmdStatOrList_pair (intSize : Nat) (name text : GoString) (n : Int) (field : GoString)
    (hn : -(2 ^ (intSize - 1) : Int) ≤ n ∧ n < 2 ^ (intSize - 1))
    (rest : List GoString) (out : GoString) :
    (Client.cmdStatOrList intSize name text
        ⟨(str "+OK " ++ Itoa n ++ 32 :: field) :: rest, out, none⟩).1 =
      match ParseUint ((Split 32 field).getD 0 []) with
      | none => (0, 0, some (GoError.ResponseError
          (name ++ msgCommand ++ (msgNotUint ++ (Itoa n ++ 32 :: field)))))
      | some size => (n, size, none) := by
  have e : str "+OK " ++ Itoa n ++ 32 :: field = str "+OK" ++ 32 :: (Itoa n ++ 32 :: field) := by
    rw [okSpace]; simp
  rw [e, cmdStatOrList_reply intSize name text (str "+OK") _ (by decide), if_neg (pair_fields n field),
    convertNumberAndSize_pair intSize n field hn]
  cases ParseUint ((Split 32 field).getD 0 []) <;> rfl

/-- C9: when writes succeed and the reply line is `+OK `, the decimal form of
an `int` value `n`, one space and a second field, `Stat` and `List k` return
`(n, s)` with no error if the second field is the decimal form of `s` with
`s < 2 ^ 64`; if it is the decimal form of a number that is `2 ^ 64` or more,
or starts with a minus sign, they return an error. -/
theorem Stat_List_pair (intSize : Nat) (n k : Int) (field : GoString) (rest : List GoString)
    (c : Conn) (hw : c.wfault = none)
    (hn : -(2 ^ (intSize - 1) : Int) ≤ n ∧ n < 2 ^ (intSize - 1))
    (hin : c.input = (str "+OK " ++ Itoa n ++ 32 :: field) :: rest) :
    (∀ s : Nat, s < 2 ^ 64 → field = FormatUint s →
      (Client.Stat intSize c).1 = (n, s, none) ∧ (Client.List intSize k c).1 = (n, s, none)) ∧
    (∀ s : Nat, 2 ^ 64 ≤ s → field = FormatUint s →
      (∃ err, (Client.Stat intSize c).1 = (0, 0, some err)) ∧
        ∃ err, (Client.List intSize k c).1 = (0, 0, some err)) ∧
    (∀ d : GoString, field = 45 :: d →
      (∃ err, (Client.Stat intSize c).1 = (0, 0, some err)) ∧
        ∃ err, (Client.List intSize k c).1 = (0, 0, some err)) := by
  obtain ⟨inp, out, wf⟩ := c
  simp only at hw hin
  subst hw hin
  simp only [Client.Stat, Client.List, cmdStatOrList_pair intSize _ _ n field hn]
  refine ⟨?_, ?_, ?_⟩
  · intro s hs hf
    subst hf
    have hp : ParseUint (FormatUint s) = some s := by rw [ParseUint_FormatUint, if_pos hs]
    simp [Split_of_not_mem 32 _ (FormatUint_no_space s), hp]
  · intro s hs hf
    subst hf
    have hs2 : ¬ s < 2 ^ 64 := by omega
    have hp : ParseUint (FormatUint s) = none := by rw [ParseUint_FormatUint, if_neg hs2]
    simp [Split_of_not_mem 32 _ (FormatUint_no_space s), hp]
  · intro d hf
    subst hf
    obtain ⟨f, fs, e⟩ := Split_cons_head 32 45 d (by decide)
    simp [e, ParseUint_minus]

theorem Stat_List_pair_witness :
    (Client.Stat 64 ⟨[str "+OK 6 78680"], [], none⟩).1 = (6, 78680, none) ∧
      (Client.List 64 1 ⟨[str "+OK 6 78680"], [], none⟩).1 = (6, 78680, none) :=
  (Stat_List_pair 64 6 1 (str "78680") [] ⟨[str "+OK 6 78680"], [], none⟩ rfl (by decide)
    (by decide)).1 78680 (by decide) (by decide)

theorem infix_append_right (a b : GoString) : b <:+: a ++ b :=
  (List.suffix_append a b).isInfix

theorem cmdStatOrList_failure (intSize : Nat) (name text tok msg : GoString)
    (htok : tok ∈ caseSpellings (str "+OK")) (rest : List GoString) (out : GoString)
    (h : (Split 32 msg).length < 2 ∨ Atoi intSize ((Split 32 msg).getD 0 []) = none ∨
      ParseUint ((Split 32 msg).getD 1 []) = none) :
    ∃ m, (Client.cmdStatOrList intSize name text ⟨(tok ++ 32 :: msg) :: rest, out, none⟩).1 =
        (0, 0, some (GoError.ResponseError m)) ∧ msg <:+: m := by
  rw [cmdStatOrList_reply intSize name text tok msg htok]
  by_cases hlen : (Split 32 msg).length < 2
  · rw [if_pos hlen]
    exact ⟨_, rfl, infix_append_right _ _⟩
  · rw [if_neg hlen]
    cases hA : Atoi intSize ((Split 32 msg).getD 0 []) with
    | none =>
      refine ⟨name ++ msgCommand ++ (msgNotInt ++ msg), ?_, ?_⟩
      · simp only [Client.convertNumberAndSize, if_neg hlen, hA, GoError.Error]
      · rw [← List.append_assoc]
        exact infix_append_right _ _
    | some val =>
      cases hP : ParseUint ((Split 32 msg).getD 1 []) with
      | none =>
        refine ⟨name ++ msgCommand ++ (msgNotUint ++ msg), ?_, ?_⟩
        · simp only [Client.convertNumberAndSize, if_neg hlen, hA, hP, GoError.Error]
        · rw [← List.append_assoc]
          exact infix_append_right _ _
      | some size =>
        rcases h with h | h | h
        · exact absurd h hlen
        · rw [hA] at h
          exact absurd h (by simp)
        · rw [hP] at h
          exact absurd h (by simp)

theorem Uidl_failure (intSize : Nat) (k : Int) (tok msg : GoString)
    (htok : tok ∈ caseSpellings (str "+OK")) (rest : List GoString) (out : GoString)
    (h : (Split 32 msg).length < 2 ∨ Atoi intSize ((Split 32 msg).getD 0 []) = none) :
    ∃ m, (Client.Uidl intSize k ⟨(tok ++ 32 :: msg) :: rest, out, none⟩).1 =
        (0, [], some (GoError.ResponseError m)) ∧ msg <:+: m := by
  rw [Uidl_reply intSize k tok msg htok]
  by_cases hlen : (Split 32 msg).length < 2
  · refine ⟨msgUidl ++ (msgFewFields ++ msg), ?_, ?_⟩
    · simp [Client.convertNumberAndUid, hlen, GoError.Error]
    · rw [← List.append_assoc]
      exact infix_append_right _ _
  · cases hA : Atoi intSize ((Split 32 msg).getD 0 []) with
    | none =>
      refine ⟨msgUidl ++ (msgNotInt ++ msg), ?_, ?_⟩
      · simp only [Client.convertNumberAndUid, if_neg hlen, hA, GoError.Error]
      · rw [← List.append_assoc]
        exact infix_append_right _ _
    | some val =>
      rcases h with h | h
      · exact absurd h hlen
      · rw [hA] at h
        exact absurd h (by simp)

/-- C10: when writes succeed and the reply is a success line whose text `msg`
has fewer than two space-separated fields, or a first field that `Atoi`
rejects, or (for `Stat` and `List`) a second field that `ParseUint` rejects,
then `Stat`, `List k` and `Uidl k` return zero results together with a
`ResponseError` whose message contains the whole of `msg`. -/
theorem parse_failure_error (intSize : Nat) (k : Int) (tok msg : GoString)
    (rest : List GoString) (c : Conn) (hw : c.wfault = none)
    (htok : tok ∈ caseSpellings (str "+OK")) (hin : c.input = (tok ++ 32 :: msg) :: rest) :
    (((Split 32 msg).length < 2 ∨ Atoi intSize ((Split 32 msg).getD 0 []) = none ∨
        ParseUint ((Split 32 msg).getD 1 []) = none) →
      (∃ m, (Client.Stat intSize c).1 = (0, 0, some (GoError.ResponseError m)) ∧ msg <:+: m) ∧
        ∃ m, (Client.List intSize k c).1 = (0, 0, some (GoError.ResponseError m)) ∧
          msg <:+: m) ∧
    (((Split 32 msg).length < 2 ∨ Atoi intSize ((Split 32 msg).getD 0 []) = none) →
      ∃ m, (Client.Uidl intSize k c).1 = (0, [], some (GoError.ResponseError m)) ∧
        msg <:+: m) := by
  obtain ⟨inp, out, wf⟩ := c
  simp only at hw hin
  subst hw hin
  refine ⟨fun h => ⟨?_, ?_⟩, fun h => ?_⟩
  · exact cmdStatOrList_failure intSize _ _ tok msg htok rest out h
  · exact cmdStatOrList_failure intSize _ _ tok msg htok rest out h
  · exact Uidl_failure intSize k tok msg htok rest out h

theorem parse_failure_error_witness :
    (∃ m, (Client.Stat 64 ⟨[str "+OK 4404 octets"], [], none⟩).1 =
        (0, 0, some (GoError.ResponseError m)) ∧ str "4404 octets" <:+: m) ∧
      ∃ m, (Client.List 64 1 ⟨[str "+OK 4404 octets"], [], none⟩).1 =
        (0, 0, some (GoError.ResponseError m)) ∧ str "4404 octets" <:+: m :=
  (parse_failure_error 64 1 (str "+OK") (str "4404 octets") []
    ⟨[str "+OK 4404 octets"], [], none⟩ rfl (by decide) rfl).1
    (Or.inr (Or.inr (by decide)))

/-! ## Listings -/

theorem rangeLines_all_ok {σ : Type} (f : σ → GoString → σ × Option GoError)
    (step : σ → GoString → σ) (lines : List GoString)
    (h : ∀ st, ∀ l ∈ lines, f st l = (step st l, none)) :
    ∀ st, Client.rangeLines f lines st = (lines.foldl step st, none) := by
  induction lines with
  | nil => intro st; simp [Client.rangeLines]
  | cons l ls ih =>
    intro st
    have h1 := h st l (by simp)
    have h2 : ∀ st, ∀ x ∈ ls, f st x = (step st x, none) := fun st x hx => h st x (by simp [hx])
    simp only [Client.rangeLines, h1, List.foldl_cons]
    exact ih h2 _

theorem rangeLines_first_fail {σ : Type} (f : σ → GoString → σ × Option GoError)
    (step : σ → GoString → σ) (good : List GoString) (bad : GoString) (more : List GoString)
    (e : GoError) (h : ∀ st, ∀ l ∈ good, f st l = (step st l, none))
    (hb : ∀ st, f st bad = (st, some e)) :
    ∀ st, Client.rangeLines f (good ++ bad :: more) st = (good.foldl step st, some e) := by
  induction good with
  | nil => intro st; simp [Client.rangeLines, hb st]
  | cons l ls ih =>
    intro st
    have h1 := h st l (by simp)
    have h2 : ∀ st, ∀ x ∈ ls, f st x = (step st x, none) := fun st x hx => h st x (by simp [hx])
    simp only [List.cons_append, Client.rangeLines, h1, List.foldl_cons]
    exact ih h2 _

theorem foldl_snoc_map {α β : Type} (g : α → β) (lines : List α) :
    ∀ acc : List β, lines.foldl (fun st l => st ++ [g l]) acc = acc ++ lines.map g := by
  induction lines with
  | nil => intro acc; simp
  | cons l ls ih => intro acc; simp [ih]

theorem cmdReadLines_block {σ : Type} (cmnd : GoString)
    (f : σ → GoString → σ × Option GoError) (st : σ) (tok t : GoString)
    (htok : tok ∈ caseSpellings (str "+OK")) (body rest : List GoString)
    (hbody : ∀ l ∈ body, l ≠ str ".") (out : GoString) :
    Client.cmdReadLines cmnd f st ⟨(tok ++ 32 :: t) :: (body ++ str "." :: rest), out, none⟩ =
      (Client.rangeLines f body st, ⟨rest, out ++ cmnd ++ crnl, none⟩) := by
  simp only [Client.cmdReadLines, Writer.WriteLine, ReadResponse_success tok htok]
  rw [ReadLines_block _ body rest hbody rfl]

theorem ne_period_of_space (l : GoString) (h : 32 ∈ l) : l ≠ str "." := by
  intro e
  rw [e] at h
  revert h
  decide

theorem convertNumberAndSize_line (intSize : Nat) (n : Int) (s : Nat)
    (hn : -(2 ^ (intSize - 1) : Int) ≤ n ∧ n < 2 ^ (intSize - 1)) (hs : s < 2 ^ 64) :
    Client.convertNumberAndSize intSize (Itoa n ++ 32 :: FormatUint s) = (n, s, none) := by
  have hp : ParseUint (FormatUint s) = some s := by rw [ParseUint_FormatUint, if_pos hs]
  rw [convertNumberAndSize_pair intSize n _ hn, Split_of_not_mem 32 _ (FormatUint_no_space s)]
  simp [hp]

theorem convertNumberAndUid_line (intSize : Nat) (n : Int) (u : GoString)
    (hn : -(2 ^ (intSize - 1) : Int) ≤ n ∧ n < 2 ^ (intSize - 1)) (hu : 32 ∉ u) :
    Client.convertNumberAndUid intSize (Itoa n ++ 32 :: u) = (n, u, none) := by
  have hs : Split 32 (Itoa n ++ 32 :: u) = [Itoa n, u] := by
    rw [Split_append 32 _ _ (Itoa_no_space n), Split_of_not_mem 32 u hu]
  simp [Client.convertNumberAndUid, hs, Atoi_Itoa intSize n hn]

/-- C11: when writes succeed and the input is a success reply line, then one
line `n s` for each pair of an `int` value `n` and a size `s < 2 ^ 64`, then
the line `.`, `ListAll` returns with no error one `MessageInfo` per line, in
the order of the lines, with that number, that size and an empty `Uid`; the
result is as long as the body. -/
theorem ListAll_pairs (intSize : Nat) (pairs : List (Int × Nat)) (tok t : GoString)
    (rest : List GoString) (c : Conn) (hw : c.wfault = none)
    (htok : tok ∈ caseSpellings (str "+OK"))
    (hp : ∀ p ∈ pairs, (-(2 ^ (intSize - 1) : Int) ≤ p.1 ∧ p.1 < 2 ^ (intSize - 1)) ∧
      p.2 < 2 ^ 64)
    (hin : c.input = (tok ++ 32 :: t) ::
      (pairs.map (fun p => Itoa p.1 ++ 32 :: FormatUint p.2) ++ str "." :: rest)) :
    Client.ListAll intSize c =
        ((some (pairs.map (fun p => { Number := p.1, Size := p.2, Uid := [] })), none),
          { input := rest, output := c.output ++ str "LIST" ++ crnl, wfault := none }) ∧
      ∀ l, (Client.ListAll intSize c).1.1 = some l → l.length = pairs.length := by
  obtain ⟨inp, out, wf⟩ := c
  simp only at hw hin
  subst hw hin
  have hbody : ∀ l ∈ pairs.map (fun p => Itoa p.1 ++ 32 :: FormatUint p.2), l ≠ str "." := by
    intro l hl
    obtain ⟨p, _, rfl⟩ := List.mem_map.mp hl
    exact ne_period_of_space _ (by simp)
  have hmain : Client.ListAll intSize
      ⟨(tok ++ 32 :: t) :: (pairs.map (fun p => Itoa p.1 ++ 32 :: FormatUint p.2) ++
        str "." :: rest), out, none⟩ =
      ((some (pairs.map (fun p => { Number := p.1, Size := p.2, Uid := [] })), none),
        { input := rest, output := out ++ str "LIST" ++ crnl, wfault := none }) := by
    simp only [Client.ListAll]
    rw [cmdReadLines_block _ _ _ tok t htok _ rest hbody out]
    rw [rangeLines_all_ok _
      (fun st l => st ++ [{ Number := (Client.convertNumberAndSize intSize l).1,
                            Size := (Client.convertNumberAndSize intSize l).2.1, Uid := [] }])]
    · rw [foldl_snoc_map]
      simp only [List.nil_append, List.map_map]
      congr 3
      apply List.map_congr_left
      intro p hpm
      obtain ⟨h1, h2⟩ := hp p hpm
      simp [convertNumberAndSize_line intSize p.1 p.2 h1 h2]
    · intro st l hl
      obtain ⟨p, hpm, rfl⟩ := List.mem_map.mp hl
      obtain ⟨h1, h2⟩ := hp p hpm
      simp [convertNumberAndSize_line intSize p.1 p.2 h1 h2]
  refine ⟨hmain, ?_⟩
  intro l hl
  rw [hmain] at hl
  simp only [Option.some.injEq] at hl
  rw [← hl, List.length_map]

theorem ListAll_pairs_witness :
    Client.ListAll 64 ⟨[str "+OK 2 messages", str "1 100", str "2 200", str "."], [], none⟩ =
      ((some [{ Number := 1, Size := 100, Uid := [] }, { Number := 2, Size := 200, Uid := [] }],
        none), ⟨[], str "LIST\r\n", none⟩) :=
  (ListAll_pairs 64 [(1, 100), (2, 200)] (str "+OK") (str "2 messages") []
    ⟨[str "+OK 2 messages", str "1 100", str "2 200", str "."], [], none⟩ rfl (by decide)
    (by decide) (by decide)).1

/-- C12: when writes succeed and the input is a success reply line, then one
line `n u` for each pair of an `int` value `n` and a non-empty text `u`
without spaces, then the line `.`, `UidlAll` returns with no error one
`MessageInfo` per line, in the order of the lines, with that number, `u` as
`Uid` and size 0; and `Uidl k` on the success reply with text `n u` returns
`(n, u)`. -/
theorem UidlAll_pairs (intSize : Nat) (pairs : List (Int × GoString)) (tok t : GoString)
    (rest : List GoString) (c : Conn) (hw : c.wfault = none)
    (htok : tok ∈ caseSpellings (str "+OK"))
    (hp : ∀ p ∈ pairs, (-(2 ^ (intSize - 1) : Int) ≤ p.1 ∧ p.1 < 2 ^ (intSize - 1)) ∧
      p.2 ≠ [] ∧ 32 ∉ p.2)
    (hin : c.input = (tok ++ 32 :: t) ::
      (pairs.map (fun p => Itoa p.1 ++ 32 :: p.2) ++ str "." :: rest)) :
    Client.UidlAll intSize c =
        ((some (pairs.map (fun p => { Number := p.1, Size := 0, Uid := p.2 })), none),
          { input := rest, output := c.output ++ str "UIDL" ++ crnl, wfault := none }) ∧
      ∀ (k : Int) (p : Int × GoString) (more : List GoString) (out : GoString),
        ((-(2 ^ (intSize - 1) : Int) ≤ p.1 ∧ p.1 < 2 ^ (intSize - 1)) ∧ p.2 ≠ [] ∧ 32 ∉ p.2) →
        (Client.Uidl intSize k ⟨(tok ++ 32 :: (Itoa p.1 ++ 32 :: p.2)) :: more, out, none⟩).1 =
          (p.1, p.2, none) := by
  obtain ⟨inp, out, wf⟩ := c
  simp only at hw hin
  subst hw hin
  have hbody : ∀ l ∈ pairs.map (fun p => Itoa p.1 ++ 32 :: p.2), l ≠ str "." := by
    intro l hl
    obtain ⟨p, _, rfl⟩ := List.mem_map.mp hl
    exact ne_period_of_space _ (by simp)
  constructor
  · simp only [Client.UidlAll]
    rw [cmdReadLines_block _ _ _ tok t htok _ rest hbody out]
    rw [rangeLines_all_ok _
      (fun st l => st ++ [{ Number := (Client.convertNumberAndUid intSize l).1, Size := 0,
                            Uid := (Client.convertNumberAndUid intSize l).2.1 }])]
    · rw [foldl_snoc_map]
      simp only [List.nil_append, List.map_map]
      congr 3
      apply List.map_congr_left
      intro p hpm
      obtain ⟨h1, _, h2⟩ := hp p hpm
      simp [convertNumberAndUid_line intSize p.1 p.2 h1 h2]
    · intro st l hl
      obtain ⟨p, hpm, rfl⟩ := List.mem_map.mp hl
      obtain ⟨h1, _, h2⟩ := hp p hpm
      simp [convertNumberAndUid_line intSize p.1 p.2 h1 h2]
  · intro k p more out2 hpp
    obtain ⟨h1, _, h2⟩ := hpp
    rw [Uidl_reply intSize k tok _ htok, convertNumberAndUid_line intSize p.1 p.2 h1 h2]

theorem UidlAll_pairs_witness :
    Client.UidlAll 64 ⟨[str "+OK 6 messages", str "1 uidA", str "2 uidB", str "."], [], none⟩ =
      ((some [{ Number := 1, Size := 0, Uid := str "uidA" },
          { Number := 2, Size := 0, Uid := str "uidB" }], none),
        ⟨[], str "UIDL\r\n", none⟩) :=
  (UidlAll_pairs 64 [(1, str "uidA"), (2, str "uidB")] (str "+OK") (str "6 messages") []
    ⟨[str "+OK 6 messages", str "1 uidA", str "2 uidB", str "."], [], none⟩ rfl (by decide)
    (by decide) (by decide)).1

theorem convertNumberAndSize_error (intSize : Nat) (line : GoString)
    (h : (Client.convertNumberAndSize intSize line).2.2 ≠ none) :
    ∃ x, Client.convertNumberAndSize intSize line = (0, 0, some (GoError.errorString (x ++ line))) := by
  unfold Client.convertNumberAndSize at h ⊢
  simp only at h ⊢
  split_ifs at h ⊢
  · exact ⟨_, rfl⟩
  · split at h
    · exact ⟨_, rfl⟩
    · split at h
      · exact ⟨_, rfl⟩
      · simp at h

theorem convertNumberAndUid_error (intSize : Nat) (line : GoString)
    (h : (Client.convertNumberAndUid intSize line).2.2 ≠ none) :
    ∃ x, Client.convertNumberAndUid intSize line =
      (0, [], some (GoError.errorString (x ++ line))) := by
  unfold Client.convertNumberAndUid at h ⊢
  simp only at h ⊢
  split_ifs at h ⊢
  · exact ⟨_, rfl⟩
  · split at h
    · exact ⟨_, rfl⟩
    · simp at h

theorem msgListAll_eq : msgListAll = str "LIST" ++ msgCommand := by decide

theorem msgUidl_eq : msgUidl = str "UIDL" ++ msgCommand := by decide

theorem ListAll_first_fail (intSize : Nat) (tok t : GoString)
    (htok : tok ∈ caseSpellings (str "+OK")) (good : List GoString) (bad : GoString)
    (more rest : List GoString) (out : GoString)
    (hbody : ∀ l ∈ good ++ bad :: more, l ≠ str ".")
    (hgood : ∀ l ∈ good, (Client.convertNumberAndSize intSize l).2.2 = none)
    (x : GoString)
    (hbad : Client.convertNumberAndSize intSize bad =
      (0, 0, some (GoError.errorString (x ++ bad)))) :
    Client.ListAll intSize
        ⟨(tok ++ 32 :: t) :: ((good ++ bad :: more) ++ str "." :: rest), out, none⟩ =
      ((none, some (GoError.ResponseError (msgListAll ++ (x ++ bad)))),
        ⟨rest, out ++ str "LIST" ++ crnl, none⟩) := by
  simp only [Client.ListAll]
  rw [cmdReadLines_block _ _ _ tok t htok _ rest hbody out]
  rw [rangeLines_first_fail _
    (fun st l => st ++ [{ Number := (Client.convertNumberAndSize intSize l).1,
                          Size := (Client.convertNumberAndSize intSize l).2.1, Uid := [] }])
    good bad more (GoError.errorString (x ++ bad))]
  · simp [GoError.Error]
  · intro st l hl
    have h := hgood l hl
    rcases hc : Client.convertNumberAndSize intSize l with ⟨n, s, e⟩
    rw [hc] at h
    simp only at h
    subst h
    rfl
  · intro st
    simp only [hbad]

theorem UidlAll_first_fail (intSize : Nat) (tok t : GoString)
    (htok : tok ∈ caseSpellings (str "+OK")) (good : List GoString) (bad : GoString)
    (more rest : List GoString) (out : GoString)
    (hbody : ∀ l ∈ good ++ bad :: more, l ≠ str ".")
    (hgood : ∀ l ∈ good, (Client.convertNumberAndUid intSize l).2.2 = none)
    (x : GoString)
    (hbad : Client.convertNumberAndUid intSize bad =
      (0, [], some (GoError.errorString (x ++ bad)))) :
    Client.UidlAll intSize
        ⟨(tok ++ 32 :: t) :: ((good ++ bad :: more) ++ str "." :: rest), out, none⟩ =
      ((none, some (GoError.ResponseError (msgUidl ++ (x ++ bad)))),
        ⟨rest, out ++ str "UIDL" ++ crnl, none⟩) := by
  simp only [Client.UidlAll]
  rw [cmdReadLines_block _ _ _ tok t htok _ rest hbody out]
  rw [rangeLines_first_fail _
    (fun st l => st ++ [{ Number := (Client.convertNumberAndUid intSize l).1, Size := 0,
                          Uid := (Client.convertNumberAndUid intSize l).2.1 }])
    good bad more (GoError.errorString (x ++ bad))]
  · simp [GoError.Error]
  · intro st l hl
    have h := hgood l hl
    rcases hc : Client.convertNumberAndUid intSize l with ⟨n, s, e⟩
    rw [hc] at h
    simp only at h
    subst h
    rfl
  · intro st
    simp only [hbad]

/-- C13: when writes succeed and the input is a success reply line, then body
lines of which `bad` is the first that fails the per-line parse, then the line
`.`, `ListAll` (resp. `UidlAll`) returns the nil slice, however many lines
before `bad` parsed, and a `ResponseError` whose message starts with `LIST`
(resp. `UIDL`) and contains `bad`. -/
theorem listing_all_or_nothing (intSize : Nat) (tok t : GoString) (good : List GoString)
    (bad : GoString) (more rest : List GoString) (c : Conn) (hw : c.wfault = none)
    (htok : tok ∈ caseSpellings (str "+OK"))
    (hbody : ∀ l ∈ good ++ bad :: more, l ≠ str ".")
    (hin : c.input = (tok ++ 32 :: t) :: ((good ++ bad :: more) ++ str "." :: rest)) :
    ((∀ l ∈ good, (Client.convertNumberAndSize intSize l).2.2 = none) →
      (Client.convertNumberAndSize intSize bad).2.2 ≠ none →
      ∃ m, (Client.ListAll intSize c).1 = (none, some (GoError.ResponseError m)) ∧
        str "LIST" <+: m ∧ bad <:+: m) ∧
    ((∀ l ∈ good, (Client.convertNumberAndUid intSize l).2.2 = none) →
      (Client.convertNumberAndUid intSize bad).2.2 ≠ none →
      ∃ m, (Client.UidlAll intSize c).1 = (none, some (GoError.ResponseError m)) ∧
        str "UIDL" <+: m ∧ bad <:+: m) := by
  obtain ⟨inp, out, wf⟩ := c
  simp only at hw hin
  subst hw hin
  constructor
  · intro hgood hbad
    obtain ⟨x, hx⟩ := convertNumberAndSize_error intSize bad hbad
    refine ⟨msgListAll ++ (x ++ bad), ?_, ?_, ?_⟩
    · rw [ListAll_first_fail intSize tok t htok good bad more rest out hbody hgood x hx]
    · exact ⟨msgCommand ++ (x ++ bad), by rw [msgListAll_eq, List.append_assoc]⟩
    · rw [← List.append_assoc]
      exact infix_append_right _ _
  · intro hgood hbad
    obtain ⟨x, hx⟩ := convertNumberAndUid_error intSize bad hbad
    refine ⟨msgUidl ++ (x ++ bad), ?_, ?_, ?_⟩
    · rw [UidlAll_first_fail intSize tok t htok good bad more rest out hbody hgood x hx]
    · exact ⟨msgCommand ++ (x ++ bad), by rw [msgUidl_eq, List.append_assoc]⟩
    · rw [← List.append_assoc]
      exact infix_append_right _ _

theorem listing_all_or_nothing_witness :
    ∃ m, (Client.ListAll 64
        ⟨[str "+OK 3 messages", str "1 100", str "2 x", str "3 300", str "."], [], none⟩).1 =
        (none, some (GoError.ResponseError m)) ∧ str "LIST" <+: m ∧ str "2 x" <:+: m :=
  (listing_all_or_nothing 64 (str "+OK") (str "3 messages") [str "1 100"] (str "2 x")
    [str "3 300"] []
    ⟨[str "+OK 3 messages", str "1 100", str "2 x", str "3 300", str "."], [], none⟩ rfl
    (by decide) (by decide) rfl).1 (by decide) (by decide)

/-! ## Single-line commands -/

theorem parseResponse_none_iff (line : GoString) :
    (Reader.parseResponse line).2 = none ↔
      ∃ tok ∈ caseSpellings (str "+OK"), ∃ t, line = tok ++ 32 :: t := by
  constructor
  · intro h
    by_cases hs : 32 ∈ line
    · obtain ⟨h1, h2⟩ := Index_split 32 line (Index_of_mem 32 line hs)
      rw [h2, parseResponse_token _ _ h1] at h
      by_cases hu : ToUpper (List.take (Index 32 line).toNat line) = str "+OK"
      · exact ⟨_, ToUpper_ok _ hu, _, h2⟩
      · rw [if_neg hu] at h
        split_ifs at h
    · simp [Reader.parseResponse, Index_of_not_mem 32 line hs] at h
  · rintro ⟨tok, htok, t, rfl⟩
    rw [parseResponse_success tok htok t]

theorem parseResponse_rejected (tok : GoString) (htok : tok ∈ caseSpellings (str "-ERR"))
    (t : GoString) :
    Reader.parseResponse (tok ++ 32 :: t) = ([], some (GoError.ResponseError t)) := by
  obtain ⟨h1, h2, h3⟩ := caseSpellings_err tok htok
  rw [parseResponse_token tok t h1, if_neg h3, if_pos h2]

theorem cmdSimple_reply (text line : GoString) (rest : List GoString) (out : GoString) :
    Client.cmdSimple text ⟨line :: rest, out, none⟩ =
      ((Reader.parseResponse line).2, ⟨rest, out ++ text ++ crnl, none⟩) := by
  simp only [Client.cmdSimple, Writer.WriteLine]
  rw [ReadResponse_cons _ line rest rfl]
  rcases hp : Reader.parseResponse line with ⟨txt, e⟩
  cases e <;> rfl

/-- C14: when writes succeed and `line` is the next line of the input, each of
`User`, `Pass`, `Dele`, `Noop`, `Rset` and `Quit` returns the error of
`parseResponse line` and leaves the input after that one line; the error is
nil exactly when `line` is a spelling of `+OK`, a space and a text, and it is
`ResponseError t`, of message `t`, when `line` is `-ERR `, then `t`. -/
theorem simple_acknowledge (line : GoString) (rest : List GoString) (c : Conn)
    (hw : c.wfault = none) (hin : c.input = line :: rest) (u p : GoString) (n : Int) :
    (∀ op ∈ [Client.User u, Client.Pass p, Client.Dele n, Client.Noop, Client.Rset,
        Client.Quit],
      (op c).1 = (Reader.parseResponse line).2 ∧ (op c).2.input = rest ∧
      ((op c).1 = none ↔ ∃ tok ∈ caseSpellings (str "+OK"), ∃ t, line = tok ++ 32 :: t) ∧
      ∀ t, line = str "-ERR " ++ t →
        (op c).1 = some (GoError.ResponseError t) ∧ (GoError.ResponseError t).Error = t) := by
  obtain ⟨inp, out, wf⟩ := c
  simp only at hw hin
  subst hw hin
  have key : ∀ text : GoString,
      (Client.cmdSimple text ⟨line :: rest, out, none⟩).1 = (Reader.parseResponse line).2 ∧
      (Client.cmdSimple text ⟨line :: rest, out, none⟩).2.input = rest ∧
      ((Client.cmdSimple text ⟨line :: rest, out, none⟩).1 = none ↔
        ∃ tok ∈ caseSpellings (str "+OK"), ∃ t, line = tok ++ 32 :: t) ∧
      ∀ t, line = str "-ERR " ++ t →
        (Client.cmdSimple text ⟨line :: rest, out, none⟩).1 = some (GoError.ResponseError t) ∧
          (GoError.ResponseError t).Error = t := by
    intro text
    rw [cmdSimple_reply]
    refine ⟨rfl, rfl, parseResponse_none_iff line, ?_⟩
    intro t ht
    have e : str "-ERR " ++ t = str "-ERR" ++ 32 :: t := by
      have : str "-ERR " = str "-ERR" ++ [32] := by decide
      rw [this]; simp
    rw [ht, e, parseResponse_rejected (str "-ERR") (by decide) t]
    exact ⟨rfl, rfl⟩
  intro op hop
  simp only [List.mem_cons, List.mem_singleton, List.not_mem_nil, or_false] at hop
  rcases hop with rfl | rfl | rfl | rfl | rfl | rfl
  · exact key _
  · exact key _
  · exact key _
  · exact key _
  · exact key _
  · exact key _

theorem simple_acknowledge_witness :
    (Client.Dele 1 ⟨[str "-ERR no such message"], [], none⟩).1 =
        some (GoError.ResponseError (str "no such message")) ∧
      (GoError.ResponseError (str "no such message")).Error = str "no such message" :=
  ((simple_acknowledge (str "-ERR no such message") [] ⟨[str "-ERR no such message"], [], none⟩
    rfl rfl [] [] 1 (Client.Dele 1) (by simp)).2.2.2) (str "no such message") (by decide)

/-- C15: when writes succeed and the reply line does not classify as success,
`ListAll`, `UidlAll` and `Retr n` return an error and leave every line after
the reply line unread. -/
theorem failure_reply_short_circuit (intSize : Nat) (n : Int) (line : GoString)
    (rest : List GoString) (c : Conn) (e : GoError) (hw : c.wfault = none)
    (hin : c.input = line :: rest) (he : (Reader.parseResponse line).2 = some e) :
    ((Client.ListAll intSize c).1.2 ≠ none ∧ (Client.ListAll intSize c).1.1 = none ∧
        (Client.ListAll intSize c).2.input = rest) ∧
      ((Client.UidlAll intSize c).1.2 ≠ none ∧ (Client.UidlAll intSize c).1.1 = none ∧
        (Client.UidlAll intSize c).2.input = rest) ∧
      (Client.Retr n c).1 = ([], some e) ∧ (Client.Retr n c).2.input = rest := by
  obtain ⟨inp, out, wf⟩ := c
  simp only at hw hin
  subst hw hin
  have hr : ∀ o : GoString, Reader.ReadResponse ⟨line :: rest, o, none⟩ =
      (((Reader.parseResponse line).1, some e), ⟨rest, o, none⟩) := by
    intro o
    rw [ReadResponse_cons _ line rest rfl, ← he]
  refine ⟨?_, ?_, ?_⟩
  · simp [Client.ListAll, Client.cmdReadLines, Writer.WriteLine, hr]
  · simp [Client.UidlAll, Client.cmdReadLines, Writer.WriteLine, hr]
  · simp [Client.Retr, Writer.WriteLine, hr]

theorem failure_reply_short_circuit_witness :
    (Client.Retr 1 ⟨[str "-ERR no such message", str "+OK next"], [], none⟩).1 =
        ([], some (GoError.ResponseError (str "no such message"))) ∧
      (Client.Retr 1 ⟨[str "-ERR no such message", str "+OK next"], [], none⟩).2.input =
        [str "+OK next"] :=
  (failure_reply_short_circuit 64 1 (str "-ERR no such message") [str "+OK next"]
    ⟨[str "-ERR no such message", str "+OK next"], [], none⟩
    (GoError.ResponseError (str "no such message")) rfl rfl (by decide)).2.2

/-! ## Kinds of error -/

theorem cmdStatOrList_error_form (intSize : Nat) (name text tok msg : GoString)
    (htok : tok ∈ caseSpellings (str "+OK")) (rest : List GoString) (out : GoString)
    (e : GoError)
    (h : (Client.cmdStatOrList intSize name text
      ⟨(tok ++ 32 :: msg) :: rest, out, none⟩).1.2.2 = some e) :
    ∃ x, e = GoError.ResponseError (name ++ msgCommand ++ (x ++ msg)) := by
  rw [cmdStatOrList_reply intSize name text tok msg htok] at h
  by_cases hlen : (Split 32 msg).length < 2
  · rw [if_pos hlen] at h
    simp only [Option.some.injEq] at h
    exact ⟨[], by rw [← h]; simp⟩
  · rw [if_neg hlen] at h
    by_cases hc : (Client.convertNumberAndSize intSize msg).2.2 = none
    · rcases hv : Client.convertNumberAndSize intSize msg with ⟨a, b, e2⟩
      rw [hv] at hc h
      simp only at hc
      subst hc
      simp at h
    · obtain ⟨x, hx⟩ := convertNumberAndSize_error intSize msg hc
      rw [hx] at h
      simp only [GoError.Error, Option.some.injEq] at h
      exact ⟨x, h.symm⟩

theorem cmdStatOrList_rejected (intSize : Nat) (name text tok t : GoString)
    (htok : tok ∈ caseSpellings (str "-ERR")) (rest : List GoString) (out : GoString) :
    (Client.cmdStatOrList intSize name text ⟨(tok ++ 32 :: t) :: rest, out, none⟩).1 =
      (0, 0, some (GoError.ResponseError t)) := by
  simp only [Client.cmdStatOrList, Writer.WriteLine]
  rw [ReadResponse_cons _ (tok ++ 32 :: t) rest rfl, parseResponse_rejected tok htok t]

theorem Uidl_error_form (intSize : Nat) (k : Int) (tok msg : GoString)
    (htok : tok ∈ caseSpellings (str "+OK")) (rest : List GoString) (out : GoString)
    (e : GoError)
    (h : (Client.Uidl intSize k ⟨(tok ++ 32 :: msg) :: rest, out, none⟩).1.2.2 = some e) :
    ∃ x, e = GoError.ResponseError (msgUidl ++ (x ++ msg)) := by
  rw [Uidl_reply intSize k tok msg htok] at h
  by_cases hc : (Client.convertNumberAndUid intSize msg).2.2 = none
  · rcases hv : Client.convertNumberAndUid intSize msg with ⟨a, b, e2⟩
    rw [hv] at hc h
    simp only at hc
    subst hc
    simp at h
  · obtain ⟨x, hx⟩ := convertNumberAndUid_error intSize msg hc
    rw [hx] at h
    simp only [GoError.Error, Option.some.injEq] at h
    exact ⟨x, h.symm⟩

theorem Uidl_rejected (intSize : Nat) (k : Int) (tok t : GoString)
    (htok : tok ∈ caseSpellings (str "-ERR")) (rest : List GoString) (out : GoString) :
    (Client.Uidl intSize k ⟨(tok ++ 32 :: t) :: rest, out, none⟩).1 =
      (0, [], some (GoError.ResponseError t)) := by
  simp only [Client.Uidl, Writer.WriteLine]
  rw [ReadResponse_cons _ (tok ++ 32 :: t) rest rfl, parseResponse_rejected tok htok t]

theorem ListAll_rejected (intSize : Nat) (tok t : GoString)
    (htok : tok ∈ caseSpellings (str "-ERR")) (rest : List GoString) (out : GoString) :
    (Client.ListAll intSize ⟨(tok ++ 32 :: t) :: rest, out, none⟩).1 =
      (none, some (GoError.ResponseError (msgListAll ++ t))) := by
  simp only [Client.ListAll, Client.cmdReadLines, Writer.WriteLine]
  rw [ReadResponse_cons _ (tok ++ 32 :: t) rest rfl, parseResponse_rejected tok htok t]
  rfl

theorem UidlAll_rejected (intSize : Nat) (tok t : GoString)
    (htok : tok ∈ caseSpellings (str "-ERR")) (rest : List GoString) (out : GoString) :
    (Client.UidlAll intSize ⟨(tok ++ 32 :: t) :: rest, out, none⟩).1 =
      (none, some (GoError.ResponseError (msgUidl ++ t))) := by
  simp only [Client.UidlAll, Client.cmdReadLines, Writer.WriteLine]
  rw [ReadResponse_cons _ (tok ++ 32 :: t) rest rfl, parseResponse_rejected tok htok t]
  rfl

theorem suffix_append_right (a b : GoString) : b <:+ a ++ b := ⟨a, rfl⟩

/-- C16, the claim refuted: for `Stat`, `List 1` and `Uidl 1` the error of a
success reply whose text `x` fails to parse is equal to the error of the
`-ERR` reply whose text is the client's own failure message. -/
theorem parse_failure_equals_rejection :
    ((Client.Stat 64 ⟨[str "+OK x"], [], none⟩).1.2.2 ≠ none ∧
      (Client.Stat 64 ⟨[str "+OK x"], [], none⟩).1.2.2 =
        (Client.Stat 64
          ⟨[str "-ERR STATコマンドのレスポンスが不正です。: x"], [], none⟩).1.2.2) ∧
    ((Client.List 64 1 ⟨[str "+OK x"], [], none⟩).1.2.2 ≠ none ∧
      (Client.List 64 1 ⟨[str "+OK x"], [], none⟩).1.2.2 =
        (Client.List 64 1
          ⟨[str "-ERR LISTコマンドのレスポンスが不正です。: x"], [], none⟩).1.2.2) ∧
    ((Client.Uidl 64 1 ⟨[str "+OK x"], [], none⟩).1.2.2 ≠ none ∧
      (Client.Uidl 64 1 ⟨[str "+OK x"], [], none⟩).1.2.2 =
        (Client.Uidl 64 1
          ⟨[str "-ERR UIDLコマンドのレスポンスが不正です。: 分割後の配列数が2未満です。: x"],
            [], none⟩).1.2.2) := by
  decide

/-- C16, amended: the error of a parse failure and the error of a `-ERR`
reply are both `ResponseError` values, told apart by their text only.  For
`Stat`, `List k` and `Uidl k` the parse-failure message starts with the
command's introduction and ends with the reply text, and the `-ERR` reply
with text `t` gives the same error exactly when `t` is that message.  For
`ListAll` and `UidlAll` the parse-failure message ends with the offending
line, and a `-ERR` reply with text `t` can give the same error only if `t`
ends with that line. -/
theorem parse_failure_vs_rejection (intSize : Nat) (k : Int) (tok etok msg t : GoString)
    (r1 r2 : List GoString) (o1 o2 : GoString) (htok : tok ∈ caseSpellings (str "+OK"))
    (hetok : etok ∈ caseSpellings (str "-ERR")) :
    (∀ e, (Client.Stat intSize ⟨(tok ++ 32 :: msg) :: r1, o1, none⟩).1.2.2 = some e →
      ∃ m, e = GoError.ResponseError m ∧ str "STAT" ++ msgCommand <+: m ∧ msg <:+ m ∧
        ((Client.Stat intSize ⟨(etok ++ 32 :: t) :: r2, o2, none⟩).1.2.2 = some e ↔ t = m)) ∧
    (∀ e, (Client.List intSize k ⟨(tok ++ 32 :: msg) :: r1, o1, none⟩).1.2.2 = some e →
      ∃ m, e = GoError.ResponseError m ∧ str "LIST" ++ msgCommand <+: m ∧ msg <:+ m ∧
        ((Client.List intSize k ⟨(etok ++ 32 :: t) :: r2, o2, none⟩).1.2.2 = some e ↔
          t = m)) ∧
    (∀ e, (Client.Uidl intSize k ⟨(tok ++ 32 :: msg) :: r1, o1, none⟩).1.2.2 = some e →
      ∃ m, e = GoError.ResponseError m ∧ msgUidl <+: m ∧ msg <:+ m ∧
        ((Client.Uidl intSize k ⟨(etok ++ 32 :: t) :: r2, o2, none⟩).1.2.2 = some e ↔
          t = m)) ∧
    (∀ (good : List GoString) (bad : GoString) (more : List GoString),
      (∀ l ∈ good ++ bad :: more, l ≠ str ".") →
      (∀ l ∈ good, (Client.convertNumberAndSize intSize l).2.2 = none) →
      (Client.convertNumberAndSize intSize bad).2.2 ≠ none →
      ∃ m, (Client.ListAll intSize
            ⟨(tok ++ 32 :: msg) :: ((good ++ bad :: more) ++ str "." :: r1), o1, none⟩).1.2 =
          some (GoError.ResponseError m) ∧ bad <:+ m ∧
        ((Client.ListAll intSize ⟨(etok ++ 32 :: t) :: r2, o2, none⟩).1.2 =
          some (GoError.ResponseError m) → bad <:+ t)) ∧
    (∀ (good : List GoString) (bad : GoString) (more : List GoString),
      (∀ l ∈ good ++ bad :: more, l ≠ str ".") →
      (∀ l ∈ good, (Client.convertNumberAndUid intSize l).2.2 = none) →
      (Client.convertNumberAndUid intSize bad).2.2 ≠ none →
      ∃ m, (Client.UidlAll intSize
            ⟨(tok ++ 32 :: msg) :: ((good ++ bad :: more) ++ str "." :: r1), o1, none⟩).1.2 =
          some (GoError.ResponseError m) ∧ bad <:+ m ∧
        ((Client.UidlAll intSize ⟨(etok ++ 32 :: t) :: r2, o2, none⟩).1.2 =
          some (GoError.ResponseError m) → bad <:+ t)) := by
  refine ⟨?_, ?_, ?_, ?_, ?_⟩
  · intro e he
    obtain ⟨x, rfl⟩ := cmdStatOrList_error_form intSize _ _ tok msg htok r1 o1 e he
    refine ⟨_, rfl, ⟨x ++ msg, rfl⟩, ?_, ?_⟩
    · rw [← List.append_assoc]
      exact suffix_append_right _ _
    · simp only [Client.Stat, cmdStatOrList_rejected intSize _ _ etok t hetok,
        Option.some.injEq, GoError.ResponseError.injEq]
  · intro e he
    obtain ⟨x, rfl⟩ := cmdStatOrList_error_form intSize _ _ tok msg htok r1 o1 e he
    refine ⟨_, rfl, ⟨x ++ msg, rfl⟩, ?_, ?_⟩
    · rw [← List.append_assoc]
      exact suffix_append_right _ _
    · simp only [Client.List, cmdStatOrList_rejected intSize _ _ etok t hetok,
        Option.some.injEq, GoError.ResponseError.injEq]
  · intro e he
    obtain ⟨x, rfl⟩ := Uidl_error_form intSize k tok msg htok r1 o1 e he
    refine ⟨_, rfl, ⟨x ++ msg, rfl⟩, ?_, ?_⟩
    · rw [← List.append_assoc]
      exact suffix_append_right _ _
    · simp only [Uidl_rejected intSize k etok t hetok, Option.some.injEq,
        GoError.ResponseError.injEq]
  · intro good bad more hbody hgood hbad
    obtain ⟨x, hx⟩ := convertNumberAndSize_error intSize bad hbad
    refine ⟨msgListAll ++ (x ++ bad), ?_, ?_, ?_⟩
    · rw [ListAll_first_fail intSize tok msg htok good bad more r1 o1 hbody hgood x hx]
    · rw [← List.append_assoc]
      exact suffix_append_right _ _
    · rw [ListAll_rejected intSize etok t hetok]
      intro h
      simp only [Option.some.injEq, GoError.ResponseError.injEq, List.append_cancel_left_eq] at h
      rw [h]
      exact suffix_append_right _ _
  · intro good bad more hbody hgood hbad
    obtain ⟨x, hx⟩ := convertNumberAndUid_error intSize bad hbad
    refine ⟨msgUidl ++ (x ++ bad), ?_, ?_, ?_⟩
    · rw [UidlAll_first_fail intSize tok msg htok good bad more r1 o1 hbody hgood x hx]
    · rw [← List.append_assoc]
      exact suffix_append_right _ _
    · rw [UidlAll_rejected intSize etok t hetok]
      intro h
      simp only [Option.some.injEq, GoError.ResponseError.injEq, List.append_cancel_left_eq] at h
      rw [h]
      exact suffix_append_right _ _

theorem parse_failure_vs_rejection_witness :
    ∃ m, GoError.ResponseError (str "STATコマンドのレスポンスが不正です。: x") =
        GoError.ResponseError m ∧ str "STAT" ++ msgCommand <+: m ∧ str "x" <:+ m ∧
      ((Client.Stat 64 ⟨[str "-ERR busy"], [], none⟩).1.2.2 =
        some (GoError.ResponseError (str "STATコマンドのレスポンスが不正です。: x")) ↔
          str "busy" = m) :=
  (parse_failure_vs_rejection 64 1 (str "+OK") (str "-ERR") (str "x") (str "busy") [] [] [] []
    (by decide) (by decide)).1 _ (by decide)

/-- C17: when the input ends after a success reply line and before the line
`.`, `ListAll` and `UidlAll` return a new `ResponseError` built around the
text of `io.EOF`, not `io.EOF`; on a `-ERR` reply with text `busy` they return
a `ResponseError` whose message is the command's introduction followed by
`busy`, not `busy`.  `Stat` and `Uidl 1` return the `-ERR` error as it is. -/
theorem listing_rewraps_errors :
    ((Client.ListAll 64 ⟨[str "+OK 2 messages", str "1 100"], [], none⟩).1.2 =
        some (GoError.ResponseError (msgListAll ++ str "EOF")) ∧
      (Client.UidlAll 64 ⟨[str "+OK 2 messages", str "1 uidA"], [], none⟩).1.2 =
        some (GoError.ResponseError (msgUidl ++ str "EOF"))) ∧
    ((Client.ListAll 64 ⟨[str "-ERR busy"], [], none⟩).1.2 =
        some (GoError.ResponseError (msgListAll ++ str "busy")) ∧
      (Client.UidlAll 64 ⟨[str "-ERR busy"], [], none⟩).1.2 =
        some (GoError.ResponseError (msgUidl ++ str "busy"))) ∧
    ((Client.Stat 64 ⟨[str "-ERR busy"], [], none⟩).1.2.2 =
        some (GoError.ResponseError (str "busy")) ∧
      (Client.Uidl 64 1 ⟨[str "-ERR busy"], [], none⟩).1.2.2 =
        some (GoError.ResponseError (str "busy"))) := by
  decide

/-! ## Command lines and construction -/

theorem ReadResponse_snd (c : Conn) :
    (Reader.ReadResponse c).2 = { c with input := c.input.tail } := by
  obtain ⟨inp, out, wf⟩ := c
  cases inp with
  | nil => simp [Reader.ReadResponse, Reader.ReadLine]
  | cons l ls => rw [ReadResponse_cons _ l ls rfl]; rfl

theorem ReadLines_output (c : Conn) : (Reader.ReadLines c).2.output = c.output := rfl

theorem ReadToPeriod_output (c : Conn) : (Reader.ReadToPeriod c).2.output = c.output := by
  unfold Reader.ReadToPeriod
  split
  · next h => rw [← ReadLines_output c, h]
  · next h => rw [← ReadLines_output c, h]

theorem WriteLine_ok (text : GoString) (c : Conn) (hw : c.wfault = none) :
    Writer.WriteLine text c = (none, { c with output := c.output ++ text ++ crnl }) := by
  simp [Writer.WriteLine, hw]

theorem cmdSimple_output (text : GoString) (c : Conn) (hw : c.wfault = none) :
    (Client.cmdSimple text c).2.output = c.output ++ text ++ crnl := by
  simp only [Client.cmdSimple, WriteLine_ok text c hw]
  split
  · next h => rw [← congrArg Prod.snd h, ReadResponse_snd]
  · next h => rw [← congrArg Prod.snd h, ReadResponse_snd]

theorem cmdStatOrList_output (intSize : Nat) (name text : GoString) (c : Conn)
    (hw : c.wfault = none) :
    (Client.cmdStatOrList intSize name text c).2.output = c.output ++ text ++ crnl := by
  simp only [Client.cmdStatOrList, WriteLine_ok text c hw]
  split
  · next h => rw [← congrArg Prod.snd h, ReadResponse_snd]
  · next h =>
    have e := congrArg Prod.snd h
    rw [ReadResponse_snd] at e
    simp only at e
    subst e
    split_ifs
    · rfl
    · split <;> rfl

theorem Uidl_output (intSize : Nat) (k : Int) (c : Conn) (hw : c.wfault = none) :
    (Client.Uidl intSize k c).2.output = c.output ++ (str "UIDL " ++ Itoa k) ++ crnl := by
  simp only [Client.Uidl, WriteLine_ok _ c hw]
  split
  · next h => rw [← congrArg Prod.snd h, ReadResponse_snd]
  · next h =>
    have e := congrArg Prod.snd h
    rw [ReadResponse_snd] at e
    simp only at e
    subst e
    split <;> rfl

theorem Retr_output (k : Int) (c : Conn) (hw : c.wfault = none) :
    (Client.Retr k c).2.output = c.output ++ (str "RETR " ++ Itoa k) ++ crnl := by
  simp only [Client.Retr, WriteLine_ok _ c hw]
  split
  · next h => rw [← congrArg Prod.snd h, ReadResponse_snd]
  · next h =>
    have e := congrArg Prod.snd h
    rw [ReadResponse_snd] at e
    simp only at e
    subst e
    rw [ReadToPeriod_output]

theorem cmdReadLines_output {σ : Type} (cmnd : GoString)
    (f : σ → GoString → σ × Option GoError) (st : σ) (c : Conn) (hw : c.wfault = none) :
    (Client.cmdReadLines cmnd f st c).2.output = c.output ++ cmnd ++ crnl := by
  simp only [Client.cmdReadLines, WriteLine_ok cmnd c hw]
  split
  · next h => rw [← congrArg Prod.snd h, ReadResponse_snd]
  · next h =>
    have e := congrArg Prod.snd h
    rw [ReadResponse_snd] at e
    simp only at e
    subst e
    split
    · next h2 => rw [← congrArg Prod.snd h2, ReadLines_output]
    · next h2 => rw [← congrArg Prod.snd h2, ReadLines_output]

theorem ListAll_output (intSize : Nat) (c : Conn) (hw : c.wfault = none) :
    (Client.ListAll intSize c).2.output = c.output ++ str "LIST" ++ crnl := by
  unfold Client.ListAll
  split
  · next h => rw [← congrArg Prod.snd h, cmdReadLines_output _ _ _ c hw]
  · next h => rw [← congrArg Prod.snd h, cmdReadLines_output _ _ _ c hw]

theorem UidlAll_output (intSize : Nat) (c : Conn) (hw : c.wfault = none) :
    (Client.UidlAll intSize c).2.output = c.output ++ str "UIDL" ++ crnl := by
  unfold Client.UidlAll
  split
  · next h => rw [← congrArg Prod.snd h, cmdReadLines_output _ _ _ c hw]
  · next h => rw [← congrArg Prod.snd h, cmdReadLines_output _ _ _ c hw]

/-- C18: when writes succeed, `WriteLine` appends the rendered text and
`\r\n` to what has been written and nothing else, and every command
operation, whatever it then reads, has appended exactly its own line: the
verb, then for an operation with an argument one space and the argument (a
number in decimal), then `\r\n`. -/
theorem command_lines (intSize : Nat) (c : Conn) (hw : c.wfault = none) (u p : GoString)
    (n : Int) :
    (∀ text, Writer.WriteLine text c =
      (none, { c with output := c.output ++ text ++ str "\r\n" })) ∧
    (Client.User u c).2.output = c.output ++ (str "USER " ++ u) ++ str "\r\n" ∧
    (Client.Pass p c).2.output = c.output ++ (str "PASS " ++ p) ++ str "\r\n" ∧
    (Client.Stat intSize c).2.output = c.output ++ str "STAT" ++ str "\r\n" ∧
    (Client.List intSize n c).2.output = c.output ++ (str "LIST " ++ Itoa n) ++ str "\r\n" ∧
    (Client.ListAll intSize c).2.output = c.output ++ str "LIST" ++ str "\r\n" ∧
    (Client.Retr n c).2.output = c.output ++ (str "RETR " ++ Itoa n) ++ str "\r\n" ∧
    (Client.Uidl intSize n c).2.output = c.output ++ (str "UIDL " ++ Itoa n) ++ str "\r\n" ∧
    (Client.UidlAll intSize c).2.output = c.output ++ str "UIDL" ++ str "\r\n" ∧
    (Client.Dele n c).2.output = c.output ++ (str "DELE " ++ Itoa n) ++ str "\r\n" ∧
    (Client.Noop c).2.output = c.output ++ str "NOOP" ++ str "\r\n" ∧
    (Client.Rset c).2.output = c.output ++ str "RSET" ++ str "\r\n" ∧
    (Client.Quit c).2.output = c.output ++ str "QUIT" ++ str "\r\n" := by
  have hcr : str "\r\n" = crnl := by decide
  rw [hcr]
  exact ⟨fun text => WriteLine_ok text c hw, cmdSimple_output _ c hw, cmdSimple_output _ c hw,
    cmdStatOrList_output _ _ _ c hw, cmdStatOrList_output _ _ _ c hw, ListAll_output _ c hw,
    Retr_output _ c hw, Uidl_output _ _ c hw, UidlAll_output _ c hw, cmdSimple_output _ c hw,
    cmdSimple_output _ c hw, cmdSimple_output _ c hw, cmdSimple_output _ c hw⟩

theorem command_lines_witness :
    (Client.List 64 7 ⟨[str "+OK 7 120"], [], none⟩).2.output = str "LIST 7\r\n" ∧
      (Client.Quit ⟨[], [], none⟩).2.output = str "QUIT\r\n" :=
  ⟨(command_lines 64 ⟨[str "+OK 7 120"], [], none⟩ rfl [] [] 7).2.2.2.2.1,
    (command_lines 64 ⟨[], [], none⟩ rfl [] [] 7).2.2.2.2.2.2.2.2.2.2.2.2⟩

/-- C19: `NewClient` returns a client and a nil error exactly when the input
has a first line and that line classifies as success (a spelling of `+OK`, a
space, a text); otherwise it returns nil and the error of the read (`io.EOF`
on an exhausted input) or of the classification.  In every case one line is
read, so that the input left is the input without its first line, and nothing
is written. -/
theorem NewClient_all_or_nothing (conn : Conn) :
    ((NewClient conn).1.2 = none ↔
      ∃ tok ∈ caseSpellings (str "+OK"), ∃ t rest, conn.input = (tok ++ 32 :: t) :: rest) ∧
    ((NewClient conn).1.1 ≠ none ↔ (NewClient conn).1.2 = none) ∧
    (conn.input = [] → (NewClient conn).1 = (none, some GoError.EOF)) ∧
    (∀ line rest, conn.input = line :: rest →
      (NewClient conn).1.2 = (Reader.parseResponse line).2) ∧
    (∀ cl, (NewClient conn).1.1 = some cl → cl = (NewClient conn).2) ∧
    (NewClient conn).2 = { conn with input := conn.input.tail } := by
  obtain ⟨inp, out, wf⟩ := conn
  cases inp with
  | nil =>
    simp [NewClient, Reader.ReadResponse, Reader.ReadLine]
  | cons line rest =>
    have hr := ReadResponse_cons ⟨line :: rest, out, wf⟩ line rest rfl
    rcases hp : Reader.parseResponse line with ⟨txt, e⟩
    have hiff := parseResponse_none_iff line
    rw [hp] at hr hiff
    simp only at hr hiff
    cases e with
    | none =>
      obtain ⟨tok, htok, t, ht⟩ := hiff.mp rfl
      simp only [NewClient, hr]
      refine ⟨?_, ?_, ?_, ?_, ?_, ?_⟩
      · exact ⟨fun _ => ⟨tok, htok, t, rest, by rw [ht]⟩, fun _ => by trivial⟩
      · simp
      · intro h; simp at h
      · intro l r h
        simp only [List.cons.injEq] at h
        rw [← h.1, hp]
      · intro cl h
        simp only [Option.some.injEq] at h
        exact h.symm
      · rfl
    | some err =>
      simp only [NewClient, hr]
      refine ⟨?_, ?_, ?_, ?_, ?_, ?_⟩
      · constructor
        · intro h; simp at h
        · rintro ⟨tok, htok, t, r, h⟩
          simp only [List.cons.injEq] at h
          have := hiff.mpr ⟨tok, htok, t, h.1⟩
          simp at this
      · simp
      · intro h; simp at h
      · intro l r h
        simp only [List.cons.injEq] at h
        rw [← h.1, hp]
      · intro cl h; simp at h
      · rfl

/-! ## Field separator of the scalar-pair parse -/

theorem digitsValue_not_digit (l : GoString) (x : Nat) (hx : x ∈ l)
    (hd : ¬ (48 ≤ x ∧ x ≤ 57)) : ∀ m, digitsValue l m = none := by
  induction l with
  | nil => simp at hx
  | cons c cs ih =>
    intro m
    simp only [digitsValue]
    split_ifs with hc
    · rcases List.mem_cons.mp hx with e | e
      · exact absurd (e ▸ hc) hd
      · exact ih e _
    · rfl

theorem ParseUint_not_digit (l : GoString) (x : Nat) (hx : x ∈ l)
    (hd : ¬ (48 ≤ x ∧ x ≤ 57)) : ParseUint l = none := by
  simp [ParseUint, digitsValue_not_digit l x hx hd 0]

theorem ParseUint_nil : ParseUint [] = none := by simp [ParseUint]

theorem Atoi_tab (intSize : Nat) (l : GoString) (hx : 9 ∈ l) : Atoi intSize l = none := by
  cases l with
  | nil => simp at hx
  | cons c cs =>
    by_cases h1 : c = 45 ∨ c = 43
    · have hm : 9 ∈ cs := by
        rcases List.mem_cons.mp hx with e | e
        · omega
        · exact e
      have hne : cs ≠ [] := List.ne_nil_of_mem hm
      simp only [Atoi, if_pos h1, if_neg hne, digitsValue_not_digit cs 9 hm (by omega) 0]
    · have hne : c :: cs ≠ [] := by simp
      simp only [Atoi, if_neg h1, if_neg hne,
        digitsValue_not_digit (c :: cs) 9 hx (by omega) 0]

theorem Split_append_left (sep : Nat) (a b : GoString) (h : sep ∉ a) :
    ∃ f fs, Split sep (a ++ b) = (a ++ f) :: fs := by
  induction a with
  | nil =>
    cases hs : Split sep b with
    | nil => exact absurd hs (Split_ne_nil sep b)
    | cons f fs => exact ⟨f, fs, by simp [hs]⟩
  | cons c cs ih =>
    have hc : ¬ c = sep := fun e => h (by simp [e])
    have hcs : sep ∉ cs := fun e => h (by simp [e])
    obtain ⟨f, fs, e⟩ := ih hcs
    exact ⟨f, fs, by simp [Split, hc, e]⟩

theorem convertNumberAndSize_failure (intSize : Nat) (msg : GoString)
    (h : (Split 32 msg).length < 2 ∨ Atoi intSize ((Split 32 msg).getD 0 []) = none ∨
      ParseUint ((Split 32 msg).getD 1 []) = none) :
    (Client.convertNumberAndSize intSize msg).2.2 ≠ none := by
  by_cases hlen : (Split 32 msg).length < 2
  · simp only [Client.convertNumberAndSize, if_pos hlen]
    simp
  · cases hA : Atoi intSize ((Split 32 msg).getD 0 []) with
    | none =>
      simp only [Client.convertNumberAndSize, if_neg hlen, hA]
      simp
    | some val =>
      cases hP : ParseUint ((Split 32 msg).getD 1 []) with
      | none =>
        simp only [Client.convertNumberAndSize, if_neg hlen, hA, hP]
        simp
      | some size =>
        rcases h with h | h | h
        · exact absurd h hlen
        · rw [hA] at h
          exact absurd h (by simp)
        · rw [hP] at h
          exact absurd h (by simp)

theorem separator_run_fails (intSize : Nat) (n : Int) (s : Nat) (ws : GoString)
    (h0 : ws ≠ []) (h1 : ws ≠ [32]) (hws : ∀ c ∈ ws, c = 32 ∨ c = 9) :
    (Split 32 (Itoa n ++ ws ++ FormatUint s)).length < 2 ∨
      Atoi intSize ((Split 32 (Itoa n ++ ws ++ FormatUint s)).getD 0 []) = none ∨
      ParseUint ((Split 32 (Itoa n ++ ws ++ FormatUint s)).getD 1 []) = none := by
  cases ws with
  | nil => exact absurd rfl h0
  | cons x w1 =>
    rcases hws x (by simp) with rfl | rfl
    · cases w1 with
      | nil => exact absurd rfl h1
      | cons y w2 =>
        right; right
        have e : Itoa n ++ 32 :: y :: w2 ++ FormatUint s =
            Itoa n ++ 32 :: (y :: (w2 ++ FormatUint s)) := by simp
        rw [e, Split_append 32 _ _ (Itoa_no_space n)]
        rcases hws y (by simp) with rfl | rfl
        · simp [Split, ParseUint_nil]
        · obtain ⟨f, fs, hf⟩ := Split_cons_head 32 9 (w2 ++ FormatUint s) (by decide)
          rw [hf]
          simp [ParseUint_not_digit (9 :: f) 9 (by simp) (by omega)]
    · right; left
      have e : Itoa n ++ 9 :: w1 ++ FormatUint s =
          (Itoa n ++ [9]) ++ (w1 ++ FormatUint s) := by simp
      have hns : 32 ∉ Itoa n ++ [9] := by
        intro hm
        rcases List.mem_append.mp hm with hm | hm
        · exact Itoa_no_space n hm
        · simp at hm
      obtain ⟨f, fs, hf⟩ := Split_append_left 32 _ (w1 ++ FormatUint s) hns
      rw [e, hf]
      show Atoi intSize (Itoa n ++ [9] ++ f) = none
      exact Atoi_tab intSize _ (by simp)

/-- C20, the claim refuted: with two spaces between the fields the per-line
parse of `ListAll` returns an error, with a tab `Stat` does, and with three
spaces `List 1` does. -/
theorem whitespace_run_rejected :
    (Client.convertNumberAndSize 64 (str "6  78680")).2.2 ≠ none ∧
      (Client.Stat 64 ⟨[str "+OK 6\t78680"], [], none⟩).1.2.2 ≠ none ∧
      (Client.List 64 1 ⟨[str "+OK 1   4404"], [], none⟩).1.2.2 ≠ none := by
  decide

/-- C20, amended: the scalar-pair parse splits the text at every single
space.  For an `int` value `n` and a size `s < 2 ^ 64`, the decimal form of
`n`, exactly one space and the decimal form of `s` is parsed to `(n, s)` with
no error by the per-line parse of `ListAll`, by `Stat` and by `List k`; with
any other non-empty run of spaces and tabs between the two, all three return
an error. -/
theorem scalar_pair_single_space (intSize : Nat) (n k : Int) (s : Nat) (tok : GoString)
    (rest : List GoString) (out : GoString)
    (hn : -(2 ^ (intSize - 1) : Int) ≤ n ∧ n < 2 ^ (intSize - 1)) (hs : s < 2 ^ 64)
    (htok : tok ∈ caseSpellings (str "+OK")) :
    (Client.convertNumberAndSize intSize (Itoa n ++ 32 :: FormatUint s) = (n, s, none) ∧
      (Client.Stat intSize
        ⟨(tok ++ 32 :: (Itoa n ++ 32 :: FormatUint s)) :: rest, out, none⟩).1 = (n, s, none) ∧
      (Client.List intSize k
        ⟨(tok ++ 32 :: (Itoa n ++ 32 :: FormatUint s)) :: rest, out, none⟩).1 = (n, s, none)) ∧
    ∀ ws : GoString, ws ≠ [] → ws ≠ [32] → (∀ c ∈ ws, c = 32 ∨ c = 9) →
      (Client.convertNumberAndSize intSize (Itoa n ++ ws ++ FormatUint s)).2.2 ≠ none ∧
      (Client.Stat intSize
        ⟨(tok ++ 32 :: (Itoa n ++ ws ++ FormatUint s)) :: rest, out, none⟩).1.2.2 ≠ none ∧
      (Client.List intSize k
        ⟨(tok ++ 32 :: (Itoa n ++ ws ++ FormatUint s)) :: rest, out, none⟩).1.2.2 ≠ none := by
  have hline := convertNumberAndSize_line intSize n s hn hs
  have hok : ∀ name text : GoString, (Client.cmdStatOrList intSize name text
      ⟨(tok ++ 32 :: (Itoa n ++ 32 :: FormatUint s)) :: rest, out, none⟩).1 = (n, s, none) := by
    intro name text
    rw [cmdStatOrList_reply intSize name text tok _ htok, if_neg (pair_fields n _), hline]
  refine ⟨⟨hline, hok _ _, hok _ _⟩, ?_⟩
  intro ws h0 h1 hws
  have hf := separator_run_fails intSize n s ws h0 h1 hws
  have hbad : ∀ name text : GoString, (Client.cmdStatOrList intSize name text
      ⟨(tok ++ 32 :: (Itoa n ++ ws ++ FormatUint s)) :: rest, out, none⟩).1.2.2 ≠ none := by
    intro name text
    obtain ⟨m, hm, _⟩ := cmdStatOrList_failure intSize name text tok _ htok rest out hf
    rw [hm]
    simp
  exact ⟨convertNumberAndSize_failure intSize _ hf, hbad _ _, hbad _ _⟩

theorem scalar_pair_single_space_witness :
    (Client.convertNumberAndSize 64 (Itoa 6 ++ 32 :: FormatUint 78680) = (6, 78680, none) ∧
      (Client.Stat 64
        ⟨(str "+OK" ++ 32 :: (Itoa 6 ++ 32 :: FormatUint 78680)) :: [], [], none⟩).1 =
          (6, 78680, none) ∧
      (Client.List 64 1
        ⟨(str "+OK" ++ 32 :: (Itoa 6 ++ 32 :: FormatUint 78680)) :: [], [], none⟩).1 =
          (6, 78680, none)) :=
  (scalar_pair_single_space 64 6 1 78680 (str "+OK") [] [] (by decide) (by decide)
    (by decide)).1

/-! ## Framing after a listing -/

theorem ListAll_block_conn (intSize : Nat) (tok t : GoString)
    (htok : tok ∈ caseSpellings (str "+OK")) (body rest : List GoString)
    (hbody : ∀ l ∈ body, l ≠ str ".") (out : GoString) :
    (Client.ListAll intSize ⟨(tok ++ 32 :: t) :: (body ++ str "." :: rest), out, none⟩).2 =
      ⟨rest, out ++ str "LIST" ++ crnl, none⟩ := by
  simp only [Client.ListAll]
  rw [cmdReadLines_block _ _ _ tok t htok body rest hbody out]
  split
  · next h => rw [← congrArg Prod.snd h]
  · next h => rw [← congrArg Prod.snd h]

theorem UidlAll_block_conn (intSize : Nat) (tok t : GoString)
    (htok : tok ∈ caseSpellings (str "+OK")) (body rest : List GoString)
    (hbody : ∀ l ∈ body, l ≠ str ".") (out : GoString) :
    (Client.UidlAll intSize ⟨(tok ++ 32 :: t) :: (body ++ str "." :: rest), out, none⟩).2 =
      ⟨rest, out ++ str "UIDL" ++ crnl, none⟩ := by
  simp only [Client.UidlAll]
  rw [cmdReadLines_block _ _ _ tok t htok body rest hbody out]
  split
  · next h => rw [← congrArg Prod.snd h]
  · next h => rw [← congrArg Prod.snd h]

/-- C21: when writes succeed and the input is a success reply line, body
lines, the line `.` and then `rest`, `ListAll` and `UidlAll` leave exactly
`rest` unread whether or not a body line fails to parse; in particular after
a parse-failure return the input is `rest`, and a command issued next (`Noop`
here) is answered by the first line of `rest`. -/
theorem listing_keeps_framing (intSize : Nat) (tok t : GoString) (body rest : List GoString)
    (c : Conn) (hw : c.wfault = none) (htok : tok ∈ caseSpellings (str "+OK"))
    (hbody : ∀ l ∈ body, l ≠ str ".")
    (hin : c.input = (tok ++ 32 :: t) :: (body ++ str "." :: rest)) :
    ((Client.ListAll intSize c).2.input = rest ∧ (Client.UidlAll intSize c).2.input = rest) ∧
    ((Client.ListAll intSize c).1.2 ≠ none → (Client.ListAll intSize c).2.input = rest) ∧
    ((Client.UidlAll intSize c).1.2 ≠ none → (Client.UidlAll intSize c).2.input = rest) ∧
    ∀ line more, rest = line :: more →
      (Client.Noop (Client.ListAll intSize c).2).1 = (Reader.parseResponse line).2 ∧
      (Client.Noop (Client.UidlAll intSize c).2).1 = (Reader.parseResponse line).2 ∧
      (Client.Noop (Client.ListAll intSize c).2).2.input = more ∧
      (Client.Noop (Client.UidlAll intSize c).2).2.input = more := by
  obtain ⟨inp, out, wf⟩ := c
  simp only at hw hin
  subst hw hin
  have hL := ListAll_block_conn intSize tok t htok body rest hbody out
  have hU := UidlAll_block_conn intSize tok t htok body rest hbody out
  refine ⟨⟨by rw [hL], by rw [hU]⟩, fun _ => by rw [hL], fun _ => by rw [hU], ?_⟩
  intro line more hr
  subst hr
  rw [hL, hU]
  simp only [Client.Noop, cmdSimple_reply, and_self]

theorem listing_keeps_framing_witness :
    (Client.ListAll 64
        ⟨[str "+OK 2 messages", str "1 x", str "2 200", str ".", str "+OK next"], [],
          none⟩).1.2 ≠ none ∧
      (Client.ListAll 64
        ⟨[str "+OK 2 messages", str "1 x", str "2 200", str ".", str "+OK next"], [],
          none⟩).2.input = [str "+OK next"] :=
  ⟨by decide,
    (listing_keeps_framing 64 (str "+OK") (str "2 messages") [str "1 x", str "2 200"]
      [str "+OK next"]
      ⟨[str "+OK 2 messages", str "1 x", str "2 200", str ".", str "+OK next"], [], none⟩
      rfl (by decide) (by decide) rfl).1.1⟩

end Pop3
